import Mathlib

/-!
A shallow embedding of `datatable.c`.

The C file defines `make_datatable`, `dt_delete_columns`, `datatable_dealloc`,
`_compare_ints` and `datatable_apply_na_mask`.  They are embedded here as pure
functions with explicit state passing.

Conventions of the embedding.

* A C run that leaves defined behaviour (dereference of a NULL column pointer,
  an access outside a modelled buffer, a `memmove` of negative size, an `int32`
  computation outside the `int32` range) is reported explicitly: functions
  return `Option`, with `none` for such a run, or a status `undefined`.
* `int` / `int32_t` / `int64_t` values are `Int`; array cells and bytes are
  `Nat`; narrowing casts are written with an explicit remainder.
* Tables are embedded twice.  By value (`DataTable`): every slot of a column
  array holds its own column value, so two slots never alias one column object
  and the mask shares no column with the target.  In memory (`Memory`,
  `TableObj`): the column arrays hold the addresses of column objects, so a
  column object may stand in several slots, of one table or of both, and the
  target and the mask may be one table object.  `datatable_apply_na_mask` is the
  function on tables by value, `datatable_apply_na_mask_mem` the same function
  on a memory; the two agree on a memory in which no column object stands in
  two slots.  Each column object owns its buffer.
* Allocation (`dtmalloc`, `dtrealloc`) is taken to succeed.
-/

namespace DT

/-! ## Data model -/

/-- The physical storage kinds named by the source.  The enumeration itself is
declared in a header; `ST_OTHER` stands for every member of it that
`datatable.c` does not name. -/
inductive SType where
  | ST_BOOLEAN_I1
  | ST_INTEGER_I1
  | ST_INTEGER_I2
  | ST_INTEGER_I4
  | ST_INTEGER_I8
  | ST_REAL_F4
  | ST_REAL_F8
  | ST_STRING_I4_VCHAR
  | ST_OTHER (code : Nat)
  deriving DecidableEq, Repr

/-- The missing-value constants `NA_I1`, `NA_I2`, `NA_I4`, `NA_I8`,
`NA_F4_BITS`, `NA_F8_BITS`.  They are defined in a header that is not part of
the sources, so they are a parameter of the embedding. -/
structure NAValues where
  NA_I1 : Int
  NA_I2 : Int
  NA_I4 : Int
  NA_I8 : Int
  NA_F4_BITS : Nat
  NA_F8_BITS : Nat
  deriving DecidableEq, Repr

/-- Modelled from the spec: the values of the missing-value constants, which
the sources use but do not define.  The integer kinds reserve "the minimal
representable integer", the float kinds "a dedicated float bit pattern" (a NaN
with a payload). -/
def NA_spec : NAValues where
  NA_I1 := -128
  NA_I2 := -32768
  NA_I4 := -2147483648
  NA_I8 := -9223372036854775808
  NA_F4_BITS := 0x7F8007A2
  NA_F8_BITS := 0x7FF00000000007A2

/-- A `RowIndex`; `datatable.c` reads only its `length`. -/
structure RowIndex where
  length : Int
  deriving DecidableEq, Repr

/-- A `Column`.  The buffer `data` is represented by the views the source takes
of it:

* `data`: the buffer as an array of elements of the width of `stype`
  (`cdata` for a fixed-width target column, `mdata` for a mask column);
* `strdata`: for a string column, the bytes addressed through the pointer
  `strdata = (char*)data - 1` of the source, `strdata[p]` being list index `p`;
* `offdata`: for a string column, the `int32` offsets at `data + offoff`;
* `offdata_m1`: the `int32` that precedes the offsets, read by the source as
  `offdata[j - 1]` when `j = 0`.

String `i` occupies `strdata[|offdata[i-1]| .. |offdata[i]|)`. -/
structure Column where
  stype : SType
  nrows : Int
  refcount : Int
  data : List Nat
  strdata : List Nat
  offdata_m1 : Int
  offdata : List Int
  deriving DecidableEq, Repr

/-- A `DataTable`.  `columns` is the array of column pointers, `none` being
`NULL`; the array is expected to hold `ncols` columns followed by a `NULL`. -/
structure DataTable where
  nrows : Int
  ncols : Int
  rowindex : Option RowIndex
  columns : List (Option Column)
  deriving DecidableEq, Repr

/-- What a C call that returns a pointer does: it leaves defined behaviour,
returns `NULL`, or returns an object. -/
inductive Ret (α : Type) where
  | undefined : Ret α
  | null : Ret α
  | ptr (a : α) : Ret α
  deriving DecidableEq, Repr

/-! ## `make_datatable` -/

/-- The loop `while (cols[ncols] != NULL) ncols++` started at `ncols = 0`: the
number of slots before the first `NULL`.  A list without a `NULL` makes the
loop read past the array. -/
def count_columns : List (Option Column) → Option Nat
  | [] => none
  | none :: _ => some 0
  | some _ :: rest => (count_columns rest).map (· + 1)

/-- The function `make_datatable(cols, rowindex)`. -/
def make_datatable (cols : Option (List (Option Column)))
    (rowindex : Option RowIndex) : Ret DataTable :=
  match cols with
  | none => Ret.null
  | some cols =>
    match count_columns cols with
    | none => Ret.undefined
    | some ncols =>
      let res : DataTable :=
        { nrows := 0, ncols := (ncols : Int), rowindex := none, columns := cols }
      match rowindex with
      | some ri => Ret.ptr { res with rowindex := some ri, nrows := ri.length }
      | none =>
        if ncols ≠ 0 then
          match cols.head? with
          | some (some c0) => Ret.ptr { res with nrows := c0.nrows }
          | _ => Ret.undefined
        else Ret.ptr res

/-! ## Loops and machine integers -/

/-- The state after the first `n` iterations of `for (i = 0; i < n; i++) body`,
started in `init`; `none` as soon as one iteration leaves defined behaviour. -/
def for_loop {σ : Type} (body : Nat → σ → Option σ) (init : σ) : Nat → Option σ
  | 0 => some init
  | n + 1 => (for_loop body init n).bind (body n)

/-- An `int32_t` result: defined when it lies in the `int32` range. -/
def int32 (x : Int) : Option Int :=
  if -2147483648 ≤ x ∧ x ≤ 2147483647 then some x else none

/-- The C library `abs` on an `int32_t`: undefined at `INT32_MIN` (and outside
the type). -/
def abs32 (x : Int) : Option Int :=
  if -2147483648 < x ∧ x ≤ 2147483647 then some (if x < 0 then -x else x) else none

/-- The cast `(int) x` of an `int64_t`: reduction modulo `2^32` into the `int`
range. -/
def to_int (x : Int) : Int :=
  (x + 2147483648) % 4294967296 - 2147483648

/-! ## `dt_delete_columns` -/

/-- The comparator `_compare_ints`: `(x > y) - (x < y)`. -/
def compare_ints (x y : Int) : Int :=
  (if x > y then 1 else 0) - (if x < y then 1 else 0)

/-- The C library `qsort` on an `int` array: the array sorted so that
`cmp a b ≤ 0` for neighbours `a`, `b`.  For `int`s under `compare_ints` the
sorted array is unique, so any sorting algorithm gives the result of
`qsort`; insertion sort is used. -/
def qsort (cmp : Int → Int → Int) (a : List Int) : List Int :=
  a.insertionSort (fun x y => cmp x y ≤ 0)

/-- Modelled from the spec: `column_decref`, declared outside the sources.  The
spec: "release (decrement; on reaching zero, free buffer and any owned
metadata)".  Only the counter is modelled. -/
def column_decref (c : Column) : Column :=
  { c with refcount := c.refcount - 1 }

/-- The `do { k++; next = k < n ? cols_to_remove[k] : -1; } while (next == i)`
loop of `dt_delete_columns`, started at `k`; it returns the final `k` and
`next_col_to_remove`.  `fuel` bounds the number of iterations; `none` when it
is used up, which for `i ≥ 0` and `fuel` above the length of the array does not
happen: the loop goes on only while `k` is below the length. -/
def skip_repeated (cols_to_remove : List Int) (i : Int) : Nat → Nat → Option (Nat × Int)
  | 0, _ => none
  | fuel + 1, k =>
    let k1 := k + 1
    let next := (cols_to_remove[k1]?).getD (-1)
    if next = i then skip_repeated cols_to_remove i fuel k1 else some (k1, next)

/-- The variables of the main loop of `dt_delete_columns`; `released` lists the
arguments of the `column_decref` calls so far, each after its release. -/
structure DelState where
  columns : List (Option Column)
  j : Nat
  next_col_to_remove : Int
  k : Nat
  released : List (Option Column)
  deriving DecidableEq, Repr

/-- One iteration, for slot `i`, of the main loop of `dt_delete_columns`;
`cols_to_remove` is the sorted array. -/
def delete_body (cols_to_remove : List Int) (i : Nat) (s : DelState) : Option DelState :=
  match s.columns[i]? with
  | none => none
  | some c =>
    if (i : Int) = s.next_col_to_remove then
      match skip_repeated cols_to_remove (i : Int) (cols_to_remove.length + 1) s.k with
      | none => none
      | some (k, next) =>
        some { columns := s.columns.set i none, j := s.j, next_col_to_remove := next,
               k := k, released := s.released ++ [c.map column_decref] }
    else
      some { s with columns := s.columns.set s.j c, j := s.j + 1 }

/-- The function `dt_delete_columns(dt, cols_to_remove, n)`, where the pair
`(cols_to_remove, n)` is the list `cols_to_remove` and `dt` is not `NULL`.  It
returns the table after the call and the columns released by `column_decref`. -/
def dt_delete_columns (dt : DataTable) (cols_to_remove : List Int) :
    Option (DataTable × List (Option Column)) :=
  if cols_to_remove.length = 0 then some (dt, [])
  else
    let sorted := qsort compare_ints cols_to_remove
    match sorted[0]? with
    | none => none
    | some first =>
      let init : DelState :=
        { columns := dt.columns, j := 0, next_col_to_remove := first, k := 0, released := [] }
      match for_loop (delete_body sorted) init (dt.ncols + 1).toNat with
      | none => none
      | some s =>
        some ({ dt with ncols := (s.j : Int) - 1, columns := s.columns.take s.j }, s.released)

/-! ## `datatable_apply_na_mask` -/

/-- Modelled from the spec: the error macros `dterrr0`, `dterrv` and `dterrr` are
defined in a header that is not part of the sources.  By the spec each error is
"raised through a single reporting channel that aborts the current operation
and returns control to the caller", and by the comment on
`datatable_apply_na_mask` the call then returns `NULL`.  The errors carry the
names the spec gives them:
`ShapeMismatch` is "Target datatable and mask have different shapes",
`ViewNotAllowed` is "Neither target datatable nor a mask can be views",
`InvalidMaskType i` is "Column i in mask is not of a boolean type",
`UnsupportedColumnType st` is "Column type st not supported in apply_mask". -/
inductive DtError where
  | ShapeMismatch
  | ViewNotAllowed
  | InvalidMaskType (col : Int)
  | UnsupportedColumnType (stype : SType)
  deriving DecidableEq, Repr

/-- How a call of `datatable_apply_na_mask` ends: it returns `dt`, returns
`NULL` without an error (a `NULL` argument), raises an error and returns
`NULL`, or leaves defined behaviour. -/
inductive Status where
  | ok
  | null
  | raised (e : DtError)
  | undefined
  deriving DecidableEq, Repr

/-- The end of a call of `datatable_apply_na_mask`: its status and the target
table as the call leaves it. -/
structure Outcome where
  status : Status
  dt : Option DataTable
  deriving DecidableEq, Repr

/-- The pointer a call returns: the target on `ok`, else `NULL`. -/
def Outcome.returned (o : Outcome) : Option DataTable :=
  match o.status with
  | Status.ok => o.dt
  | _ => none

/-- One iteration `if (mdata[j]) cdata[j] = na;` of a fixed-width scan. -/
def fixed_body (mdata : List Nat) (na : Nat) (j : Nat) (cdata : List Nat) :
    Option (List Nat) :=
  match mdata[j]? with
  | none => none
  | some m =>
    if m ≠ 0 then
      if j < cdata.length then some (cdata.set j na) else none
    else some cdata

/-- The C library `memmove(mem + dst, mem + src, n)` inside the buffer `mem`:
the `n` bytes at `src` are read, then written at `dst`.  Undefined for a
negative size (a huge `size_t`) or a range outside the buffer. -/
def memmove (mem : List Nat) (dst src n : Int) : Option (List Nat) :=
  if 0 ≤ n ∧ 0 ≤ dst ∧ 0 ≤ src ∧ dst + n ≤ mem.length ∧ src + n ≤ mem.length then
    some (mem.take dst.toNat ++ (mem.drop src.toNat).take n.toNat
            ++ mem.drop (dst.toNat + n.toNat))
  else none

/-- The variables of the string pass: the offsets, the blob, `doffset`. -/
structure StrState where
  offdata : List Int
  strdata : List Nat
  doffset : Int
  deriving DecidableEq, Repr

/-- One iteration, for row `j`, of the loop of the `ST_STRING_I4_VCHAR` case. -/
def string_body (mdata : List Nat) (offdata_m1 : Int) (j : Nat) (s : StrState) :
    Option StrState :=
  match s.offdata[j]?, (if j = 0 then some offdata_m1 else s.offdata[j - 1]?), mdata[j]? with
  | some offi, some prev, some m =>
    match abs32 prev with
    | none => none
    | some offp =>
      if m ≠ 0 then
        match abs32 offi with
        | none => none
        | some a =>
          match int32 (s.doffset + (a - offp)) with
          | none => none
          | some d => some { s with offdata := s.offdata.set j (-offp), doffset := d }
      else if s.doffset ≠ 0 then
        if offi > 0 then
          match int32 (offi - s.doffset),
                memmove s.strdata offp (offp + s.doffset) (offi - offp - s.doffset) with
          | some o, some str =>
            some { offdata := s.offdata.set j o, strdata := str, doffset := s.doffset }
          | _, _ => none
        else some { s with offdata := s.offdata.set j (-offp) }
      else some s
  | _, _, _ => none

/-- What the `switch` does for one target column. -/
inductive ColStep where
  | done (col : Column)
  | unsupported (stype : SType)
  | undefined
  deriving DecidableEq, Repr

/-- A fixed-width case of the `switch`: the scan of `nrows` rows writing `na`. -/
def fixed_case (col : Column) (mdata : List Nat) (nrows : Int) (na : Nat) : ColStep :=
  match for_loop (fixed_body mdata na) col.data nrows.toNat with
  | some cdata => ColStep.done { col with data := cdata }
  | none => ColStep.undefined

/-- The `ST_STRING_I4_VCHAR` case of the `switch`. -/
def string_case (col : Column) (mdata : List Nat) (nrows : Int) : ColStep :=
  match for_loop (string_body mdata col.offdata_m1)
      { offdata := col.offdata, strdata := col.strdata, doffset := 0 } nrows.toNat with
  | some s => ColStep.done { col with offdata := s.offdata, strdata := s.strdata }
  | none => ColStep.undefined

/-- The `switch (col->stype)` of `datatable_apply_na_mask` for one column. -/
def apply_na_mask_column (na : NAValues) (col : Column) (mdata : List Nat) (nrows : Int) :
    ColStep :=
  match col.stype with
  | SType.ST_BOOLEAN_I1 => fixed_case col mdata nrows (na.NA_I1 % 256).toNat
  | SType.ST_INTEGER_I1 => fixed_case col mdata nrows (na.NA_I1 % 256).toNat
  | SType.ST_INTEGER_I2 => fixed_case col mdata nrows (na.NA_I2 % 65536).toNat
  | SType.ST_REAL_F4 => fixed_case col mdata nrows (na.NA_F4_BITS % 4294967296)
  | SType.ST_INTEGER_I4 => fixed_case col mdata nrows (na.NA_I4 % 4294967296).toNat
  | SType.ST_REAL_F8 => fixed_case col mdata nrows (na.NA_F8_BITS % 18446744073709551616)
  | SType.ST_INTEGER_I8 => fixed_case col mdata nrows (na.NA_I8 % 18446744073709551616).toNat
  | SType.ST_STRING_I4_VCHAR => string_case col mdata nrows
  | SType.ST_OTHER code => ColStep.unsupported (SType.ST_OTHER code)

/-- The result of the first `n` iterations of the loop that checks the mask
columns: all passed, column `i` raised the error, or a `NULL` slot was
dereferenced. -/
inductive MaskCheck where
  | pass
  | fail (i : Nat)
  | undefined
  deriving DecidableEq, Repr

/-- The first `n` iterations of
`for (i = 0; i < ncols; i++) if (mask->columns[i]->stype != ST_BOOLEAN_I1) dterrv(..., i)`. -/
def mask_check (mask : DataTable) : Nat → MaskCheck
  | 0 => MaskCheck.pass
  | i + 1 =>
    match mask_check mask i with
    | MaskCheck.pass =>
      match mask.columns[i]? with
      | some (some mcol) =>
        if mcol.stype ≠ SType.ST_BOOLEAN_I1 then MaskCheck.fail i else MaskCheck.pass
      | _ => MaskCheck.undefined
    | r => r

/-- The first `n` iterations of the loop over the target columns: the status so
far and the target's column array. -/
def apply_columns (na : NAValues) (mask : DataTable) (nrows : Int)
    (columns : List (Option Column)) : Nat → Status × List (Option Column)
  | 0 => (Status.ok, columns)
  | i + 1 =>
    match apply_columns na mask nrows columns i with
    | (Status.ok, cols) =>
      match cols[i]?, mask.columns[i]? with
      | some (some col), some (some mcol) =>
        match apply_na_mask_column na col mcol.data nrows with
        | ColStep.done col1 => (Status.ok, cols.set i (some col1))
        | ColStep.unsupported st => (Status.raised (DtError.UnsupportedColumnType st), cols)
        | ColStep.undefined => (Status.undefined, cols)
      | _, _ => (Status.undefined, cols)
    | r => r

/-- The function `datatable_apply_na_mask(dt, mask)`. -/
def datatable_apply_na_mask (na : NAValues) (dt mask : Option DataTable) : Outcome :=
  match dt, mask with
  | some t, some m =>
    if t.ncols ≠ m.ncols ∨ t.nrows ≠ m.nrows then
      { status := Status.raised DtError.ShapeMismatch, dt := some t }
    else if t.rowindex.isSome ∨ m.rowindex.isSome then
      { status := Status.raised DtError.ViewNotAllowed, dt := some t }
    else
      let ncols := to_int t.ncols
      match mask_check m ncols.toNat with
      | MaskCheck.fail i =>
        { status := Status.raised (DtError.InvalidMaskType (i : Int)), dt := some t }
      | MaskCheck.undefined => { status := Status.undefined, dt := some t }
      | MaskCheck.pass =>
        let r := apply_columns na m t.nrows t.columns ncols.toNat
        { status := r.1, dt := some { t with columns := r.2 } }
  | _, _ => { status := Status.null, dt := dt }

/-! ## `datatable_apply_na_mask` on a memory -/

/-- A `DataTable` object in memory.  `columns` is the array of column pointers,
each the address of a column object in the memory, `none` being `NULL`. -/
structure TableObj where
  nrows : Int
  ncols : Int
  rowindex : Option RowIndex
  columns : List (Option Nat)
  deriving DecidableEq, Repr

/-- The objects a call works on: the `DataTable` objects and the `Column`
objects, the address of an object being its index. -/
structure Memory where
  tables : List TableObj
  columns : List Column
  deriving DecidableEq, Repr

/-- The end of a call of `datatable_apply_na_mask` on a memory: its status, the
pointer it returns (`none` being `NULL`) and the memory as the call leaves it. -/
structure MemOutcome where
  status : Status
  ret : Option Nat
  mem : Memory
  deriving DecidableEq, Repr

/-- The first `n` iterations of
`for (i = 0; i < ncols; i++) if (mask->columns[i]->stype != ST_BOOLEAN_I1) dterrv(..., i)`,
the column objects being `cols`. -/
def mask_check_mem (cols : List Column) (mask : TableObj) : Nat → MaskCheck
  | 0 => MaskCheck.pass
  | i + 1 =>
    match mask_check_mem cols mask i with
    | MaskCheck.pass =>
      match mask.columns[i]? with
      | some (some q) =>
        match cols[q]? with
        | some mcol =>
          if mcol.stype ≠ SType.ST_BOOLEAN_I1 then MaskCheck.fail i else MaskCheck.pass
        | none => MaskCheck.undefined
      | _ => MaskCheck.undefined
    | r => r

/-- The first `n` iterations of the loop over the target columns, on the column
objects `cols`: the status so far and the column objects.  Iteration `i` takes
`col = dt->columns[i]` and `mdata = mask->columns[i]->data` as the objects are
when it starts, and its writes go to the object `col`.  Within the iteration
the scan reads `mdata[j]` before it writes row `j` and writes no other row, so
the cells of the mask column at the start of the iteration are the cells
the scan reads, also when `mdata` and `cdata` are one buffer.  (After the check
of the mask columns such a column is a boolean column, not a string column.) -/
def apply_columns_mem (na : NAValues) (dt mask : TableObj) (nrows : Int)
    (cols : List Column) : Nat → Status × List Column
  | 0 => (Status.ok, cols)
  | i + 1 =>
    match apply_columns_mem na dt mask nrows cols i with
    | (Status.ok, cs) =>
      match dt.columns[i]?, mask.columns[i]? with
      | some (some p), some (some q) =>
        match cs[p]?, cs[q]? with
        | some col, some mcol =>
          match apply_na_mask_column na col mcol.data nrows with
          | ColStep.done col1 => (Status.ok, cs.set p col1)
          | ColStep.unsupported st => (Status.raised (DtError.UnsupportedColumnType st), cs)
          | ColStep.undefined => (Status.undefined, cs)
        | _, _ => (Status.undefined, cs)
      | _, _ => (Status.undefined, cs)
    | r => r

/-- The function `datatable_apply_na_mask(dt, mask)` on a memory: `dt` and
`mask` are addresses of table objects (`none` being `NULL`).  The call assigns
no field of a table object and no slot of a column array. -/
def datatable_apply_na_mask_mem (na : NAValues) (dt mask : Option Nat) (mem : Memory) :
    MemOutcome :=
  match dt, mask with
  | some a, some b =>
    match mem.tables[a]?, mem.tables[b]? with
    | some t, some m =>
      if t.ncols ≠ m.ncols ∨ t.nrows ≠ m.nrows then
        { status := Status.raised DtError.ShapeMismatch, ret := none, mem := mem }
      else if t.rowindex.isSome ∨ m.rowindex.isSome then
        { status := Status.raised DtError.ViewNotAllowed, ret := none, mem := mem }
      else
        let ncols := to_int t.ncols
        match mask_check_mem mem.columns m ncols.toNat with
        | MaskCheck.fail i =>
          { status := Status.raised (DtError.InvalidMaskType (i : Int)), ret := none, mem := mem }
        | MaskCheck.undefined => { status := Status.undefined, ret := none, mem := mem }
        | MaskCheck.pass =>
          let r := apply_columns_mem na t m t.nrows mem.columns ncols.toNat
          { status := r.1, ret := if r.1 = Status.ok then some a else none,
            mem := { mem with columns := r.2 } }
    | _, _ => { status := Status.undefined, ret := none, mem := mem }
  | _, _ => { status := Status.null, ret := none, mem := mem }

/-! ## Specification-side definitions -/

/-- The slots of `orig` at the positions below `i` that `l` does not list, in
their order. -/
def kept_slots (orig : List (Option Column)) (l : List Int) (i : Nat) :
    List (Option Column) :=
  ((List.range i).filter (fun (x : Nat) => decide ((x : Int) ∉ l))).map (fun x => orig.getD x none)

/-- The slots of `orig` at the positions below `i` that `l` lists, each after
one release. -/
def released_slots (orig : List (Option Column)) (l : List Int) (i : Nat) :
    List (Option Column) :=
  ((List.range i).filter (fun (x : Nat) => decide ((x : Int) ∈ l))).map
    (fun x => (orig.getD x none).map column_decref)

/-- Modelled from the spec: the storage-type table of the spec, which gives for
each fixed-width kind its "reserved bit pattern denoting missing": the integer
constant of the kind's width read as an unsigned value of that width, the float
pattern for the float kinds.  The string kind and the kinds without a handler
have none. -/
def sentinel (na : NAValues) : SType → Option Nat
  | SType.ST_BOOLEAN_I1 => some (na.NA_I1 % 2 ^ 8).toNat
  | SType.ST_INTEGER_I1 => some (na.NA_I1 % 2 ^ 8).toNat
  | SType.ST_INTEGER_I2 => some (na.NA_I2 % 2 ^ 16).toNat
  | SType.ST_INTEGER_I4 => some (na.NA_I4 % 2 ^ 32).toNat
  | SType.ST_INTEGER_I8 => some (na.NA_I8 % 2 ^ 64).toNat
  | SType.ST_REAL_F4 => some (na.NA_F4_BITS % 2 ^ 32)
  | SType.ST_REAL_F8 => some (na.NA_F8_BITS % 2 ^ 64)
  | SType.ST_STRING_I4_VCHAR => none
  | SType.ST_OTHER _ => none

/-- The invariant of the main loop of `dt_delete_columns` after `i` iterations:
`orig` is the array before the loop, `l` the indices to remove, `s` the sorted
indices. -/
structure DelInv (orig : List (Option Column)) (l s : List Int) (i : Nat)
    (st : DelState) : Prop where
  len : st.columns.length = orig.length
  j_le : st.j ≤ i
  front : st.columns.take st.j = kept_slots orig l i
  j_eq : st.j = (kept_slots orig l i).length
  back : ∀ m, i ≤ m → st.columns[m]? = orig[m]?
  k_lt : ∀ (m : Nat) (x : Int), s[m]? = some x → m < st.k → x < i
  k_ge : ∀ (m : Nat) (x : Int), s[m]? = some x → st.k ≤ m → (i : Int) ≤ x
  next_eq : st.next_col_to_remove = (s[st.k]?).getD (-1)
  rel : st.released = released_slots orig l i

/-- The start of string `i` in the blob: the magnitude of the offset before it,
`offdata[-1]` for row 0. -/
def row_start (col : Column) (i : Nat) : Nat :=
  (if i = 0 then col.offdata_m1 else col.offdata.getD (i - 1) 0).natAbs

/-- The end of string `i` in the blob: the magnitude of its offset. -/
def row_end (col : Column) (i : Nat) : Nat :=
  (col.offdata.getD i 0).natAbs

/-- The string recovered for row `i`: the bytes of the blob between the
magnitudes of `offdata[i-1]` and `offdata[i]`. -/
def recovered_string (col : Column) (i : Nat) : List Nat :=
  (col.strdata.drop (row_start col i)).take (row_end col i - row_start col i)

/-- The used part of the blob of a column of `nrows` rows: from the start of
row 0 up to the magnitude of the last row's offset. -/
def used_blob (col : Column) (nrows : Nat) : List Nat :=
  (col.strdata.drop (row_start col 0)).take (row_end col (nrows - 1) - row_start col 0)

/-- The concatenation, in row order, of the strings of the rows of `col` that
the mask leaves alone and that are not missing. -/
def surviving_strings (col : Column) (mdata : List Nat) (nrows : Nat) : List Nat :=
  (((List.range nrows).filter
      (fun i => decide (mdata.getD i 0 = 0 ∧ (0 : Int) ≤ col.offdata.getD i 0))).map
    (recovered_string col)).flatten

/-! ## Example inputs -/

/-- A column of kind `st` holding the cells `d`. -/
def fixed_column (st : SType) (d : List Nat) : Column :=
  { stype := st, nrows := (d.length : Int), refcount := 1, data := d,
    strdata := [], offdata_m1 := 0, offdata := [] }

/-- A string column: the blob as addressed through `strdata`, the value of
`offdata[-1]`, and the offsets. -/
def string_column (m1 : Int) (blob : List Nat) (offs : List Int) : Column :=
  { stype := SType.ST_STRING_I4_VCHAR, nrows := (offs.length : Int), refcount := 1,
    data := [], strdata := blob, offdata_m1 := m1, offdata := offs }

/-- The table without row-index of the columns `cs`, with `nrows` rows: its
array holds the columns and the closing `NULL`. -/
def table_of (cs : List Column) (nrows : Int) : DataTable :=
  { nrows := nrows, ncols := (cs.length : Int), rowindex := none,
    columns := cs.map some ++ [none] }

/-- Example A of the spec: the 1-byte integer column `[5, NA, 7, 9]`. -/
def exA_target : DataTable := table_of [fixed_column SType.ST_INTEGER_I1 [5, 128, 7, 9]] 4

/-- Example A of the spec: the mask `[F, F, T, F]`. -/
def exA_mask : DataTable := table_of [fixed_column SType.ST_BOOLEAN_I1 [0, 0, 1, 0]] 4

/-- Example A of the spec: the result `[5, NA, NA, 9]`. -/
def exA_result : DataTable := table_of [fixed_column SType.ST_INTEGER_I1 [5, 128, 128, 9]] 4

/-- Example B of the spec: the strings "ab", "", "cd" with blob "abcd", offsets
`[2, 2, 4]` and `offdata[-1] = 0`. -/
def exB_target : DataTable := table_of [string_column 0 [97, 98, 99, 100] [2, 2, 4]] 3

/-- Example B of the spec: the mask `[F, T, F]`. -/
def exB_mask : DataTable := table_of [fixed_column SType.ST_BOOLEAN_I1 [0, 1, 0]] 3

/-- Example C of the spec: a table of four columns, column `i` holding the
cell `i`. -/
def exC_table : DataTable :=
  table_of [fixed_column SType.ST_INTEGER_I4 [0], fixed_column SType.ST_INTEGER_I4 [1],
            fixed_column SType.ST_INTEGER_I4 [2], fixed_column SType.ST_INTEGER_I4 [3]] 1

/-- The strings "a", "b", "cdef" with blob "abcdef", offsets `[1, 2, 6]` and
`offdata[-1] = 0`. -/
def two_masked_target : DataTable :=
  table_of [string_column 0 [97, 98, 99, 100, 101, 102] [1, 2, 6]] 3

/-- The same strings with positions counted from 1: `offdata[-1] = -1`, offsets
`[2, 3, 7]`, and one unused byte at `strdata[0]`. -/
def two_masked_target_one_based : DataTable :=
  table_of [string_column (-1) [0, 97, 98, 99, 100, 101, 102] [2, 3, 7]] 3

/-- The mask `[T, T, F]`. -/
def two_masked_mask : DataTable := table_of [fixed_column SType.ST_BOOLEAN_I1 [1, 1, 0]] 3

/-- The strings "ab", "cd", "ef" with blob "abcdef", offsets `[2, 4, 6]` and
`offdata[-1] = 0`. -/
def three_pairs_target : DataTable :=
  table_of [string_column 0 [97, 98, 99, 100, 101, 102] [2, 4, 6]] 3

/-- The same strings with positions counted from 1: `offdata[-1] = -1`, offsets
`[3, 5, 7]`, and one unused byte at `strdata[0]`. -/
def three_pairs_target_one_based : DataTable :=
  table_of [string_column (-1) [0, 97, 98, 99, 100, 101, 102] [3, 5, 7]] 3

/-- The one-row string column "ab" with `offdata[-1] = 0`. -/
def one_string_target : DataTable := table_of [string_column 0 [97, 98] [2]] 1

/-- The one-row mask `[T]`. -/
def one_true_mask : DataTable := table_of [fixed_column SType.ST_BOOLEAN_I1 [1]] 1

/-- A one-row mask whose column is a 1-byte integer column. -/
def int8_mask : DataTable := table_of [fixed_column SType.ST_INTEGER_I1 [1]] 1

/-- A one-row target with a 1-byte integer column. -/
def int8_target : DataTable := table_of [fixed_column SType.ST_INTEGER_I1 [5]] 1

/-- A one-row target whose column 0 is a 1-byte integer column and whose
column 1 is of a kind without a handler in the `switch`. -/
def unsupported_target : DataTable :=
  table_of [fixed_column SType.ST_INTEGER_I1 [5], fixed_column (SType.ST_OTHER 99) [7]] 1

/-- A one-row mask of two boolean columns, both cells true. -/
def two_true_mask : DataTable :=
  table_of [fixed_column SType.ST_BOOLEAN_I1 [1], fixed_column SType.ST_BOOLEAN_I1 [1]] 1

/-- The per-row update of a fixed-width scan (`fixed_body`: overwrite cell `j`
with the sentinel when mask cell `j` is true) applied to the rows in the order
`order`, one after the other. -/
def scan_in_order (mdata : List Nat) (na : Nat) : List Nat → List Nat → Option (List Nat)
  | [], cdata => some cdata
  | j :: rest, cdata => (fixed_body mdata na j cdata).bind (scan_in_order mdata na rest)

/-- The rows split into chunks, the chunks processed one after the other in
their order in `chunks`, each chunk in its own row order. -/
def scan_in_chunks (mdata : List Nat) (na : Nat) :
    List (List Nat) → List Nat → Option (List Nat)
  | [], cdata => some cdata
  | chunk :: rest, cdata =>
    (scan_in_order mdata na chunk cdata).bind (scan_in_chunks mdata na rest)

/-- A fixed-width case of the `switch` with the rows taken in the order `order`
in place of `0, 1, ..., nrows - 1`. -/
def fixed_case_in_order (col : Column) (mdata : List Nat) (order : List Nat) (na : Nat) :
    ColStep :=
  match scan_in_order mdata na order col.data with
  | some cdata => ColStep.done { col with data := cdata }
  | none => ColStep.undefined

/-- A fixed-width case of the `switch` with the rows taken chunk by chunk. -/
def fixed_case_in_chunks (col : Column) (mdata : List Nat) (chunks : List (List Nat))
    (na : Nat) : ColStep :=
  match scan_in_chunks mdata na chunks col.data with
  | some cdata => ColStep.done { col with data := cdata }
  | none => ColStep.undefined

/-- The row-count invariant of a table, in the words of the spec: the row count
"equals the RowIndex length when one is attached, else equals the shared row
count of its columns" (the columns in the slots below `ncols`). -/
def row_count_invariant (t : DataTable) : Prop :=
  match t.rowindex with
  | some ri => t.nrows = ri.length
  | none => ∀ i : Nat, (i : Int) < t.ncols → ∀ c : Column,
      t.columns[i]? = some (some c) → c.nrows = t.nrows

/-- Slot `c1` holds what slot `c0` held, up to the contents of the column: both
are `NULL`, or both hold a column of the same kind, row count and reference
count, with buffers of the same sizes. -/
def same_slot (c0 c1 : Option Column) : Prop :=
  match c0, c1 with
  | none, none => True
  | some a, some b =>
    b.stype = a.stype ∧ b.nrows = a.nrows ∧ b.refcount = a.refcount ∧
    b.offdata_m1 = a.offdata_m1 ∧ b.data.length = a.data.length ∧
    b.strdata.length = a.strdata.length ∧ b.offdata.length = a.offdata.length
  | _, _ => False

/-- A well-formed string column of `nrows` rows, after the spec ("offset[i]'s
magnitude is the cumulative end position of string i within the blob", "a
negative sign marks row i as missing"): the offsets are there, the blob is
addressable by an `int32`, the end of every row is at or after its start and
inside the blob, and a missing row holds no bytes. -/
def string_wf (col : Column) (nrows : Nat) : Prop :=
  nrows ≤ col.offdata.length ∧ col.strdata.length ≤ 2147483647 ∧
  ∀ i, i < nrows →
    row_start col i ≤ row_end col i ∧ row_end col i ≤ col.strdata.length ∧
    (col.offdata.getD i 0 < 0 → row_end col i = row_start col i)

/-- The strings "ab", "cd", "e" with blob "abcde", offsets `[2, 4, 5]` and
`offdata[-1] = 0`. -/
def short_tail_target : DataTable :=
  table_of [string_column 0 [97, 98, 99, 100, 101] [2, 4, 5]] 3

/-- The table object without row-index whose array holds the addresses `addrs`
and the closing `NULL`, with `nrows` rows. -/
def table_obj (addrs : List Nat) (nrows : Int) : TableObj :=
  { nrows := nrows, ncols := (addrs.length : Int), rowindex := none,
    columns := addrs.map some ++ [none] }

/-- A memory in which the target (table 0) holds one string column object in
both of its slots, and the mask (table 1) holds the boolean columns `[F, F, T]`
and `[T, T, F]`.  The offsets of the string column are `[-2, 0, -3]` after
`offdata[-1] = -1`: their magnitudes do not grow with the row. -/
def repeated_column_memory : Memory :=
  { tables := [table_obj [0, 0] 3, table_obj [1, 2] 3],
    columns := [string_column (-1) [0] [-2, 0, -3],
                fixed_column SType.ST_BOOLEAN_I1 [0, 0, 1],
                fixed_column SType.ST_BOOLEAN_I1 [1, 1, 0]] }

/-- The column that a slot of a column array points to, the column objects
being `cols`: nothing for `NULL` and for an address without a column object. -/
def slot_value (cols : List Column) (s : Option Nat) : Option Column :=
  s.bind (fun a => cols[a]?)

/-- The table by value that a table object stands for, the column objects being
`cols`: the same fields, and in each slot of the array the column the slot
points to. -/
def table_value (cols : List Column) (t : TableObj) : DataTable :=
  { nrows := t.nrows, ncols := t.ncols, rowindex := t.rowindex,
    columns := t.columns.map (slot_value cols) }

end DT

namespace DT

/-! ## `make_datatable` : properties -/

theorem count_columns_eq (cols : List (Option Column)) (h : none ∈ cols) :
    count_columns cols = some (cols.takeWhile Option.isSome).length := by
  induction cols with
  | nil => simp at h
  | cons c rest ih =>
    cases c with
    | none => simp [count_columns]
    | some c =>
      have h1 : none ∈ rest := by simpa using h
      simp [count_columns, ih h1]

/-- C10. `make_datatable` returns `NULL` for an absent column sequence; for a
present, `NULL`-terminated sequence it returns a table that holds the supplied
sequence and row-index, whose `ncols` is the number of columns before the
terminator and whose `nrows` is the row-index length when there is one, else
the first column's `nrows`, else `0`. -/
theorem make_datatable_spec (cols : List (Option Column)) (ri : Option RowIndex)
    (hterm : none ∈ cols) :
    make_datatable none ri = Ret.null ∧
    ∃ t, make_datatable (some cols) ri = Ret.ptr t ∧
      t.columns = cols ∧ t.rowindex = ri ∧
      t.ncols = ((cols.takeWhile Option.isSome).length : Int) ∧
      t.nrows = (match ri, cols.head? with
                 | some r, _ => r.length
                 | none, some (some c0) => c0.nrows
                 | none, _ => 0) := by
  refine ⟨rfl, ?_⟩
  cases cols with
  | nil => simp at hterm
  | cons c rest =>
    have hc := count_columns_eq (c :: rest) hterm
    cases ri with
    | some r => simp [make_datatable, hc]
    | none =>
      cases c with
      | none => simp [make_datatable, count_columns]
      | some c0 => simp [make_datatable, hc]

/-! ## `dt_delete_columns` : properties -/

theorem compare_ints_le (x y : Int) : compare_ints x y ≤ 0 ↔ x ≤ y := by
  unfold compare_ints
  split_ifs <;> omega

theorem qsort_length (l : List Int) : (qsort compare_ints l).length = l.length := by
  simp [qsort]

theorem qsort_mem (l : List Int) (x : Int) :
    x ∈ l ↔ ∃ m : Nat, (qsort compare_ints l)[m]? = some x := by
  rw [← List.mem_iff_getElem?]
  exact ((List.perm_insertionSort _ l).mem_iff).symm

theorem qsort_sorted (l : List Int) (a b : Nat) (x y : Int) (hab : a ≤ b)
    (hx : (qsort compare_ints l)[a]? = some x) (hy : (qsort compare_ints l)[b]? = some y) :
    x ≤ y := by
  haveI : IsTotal Int (fun x y => compare_ints x y ≤ 0) :=
    ⟨fun p q => by simp only [compare_ints_le]; omega⟩
  haveI : IsTrans Int (fun x y => compare_ints x y ≤ 0) :=
    ⟨fun p q r => by simp only [compare_ints_le]; omega⟩
  have hs : List.Sorted (fun x y => compare_ints x y ≤ 0) (qsort compare_ints l) :=
    List.sorted_insertionSort _ l
  rcases Nat.eq_or_lt_of_le hab with h | h
  · subst h
    rw [hx] at hy
    injection hy with hy
    omega
  · obtain ⟨ha, rfl⟩ := List.getElem?_eq_some.mp hx
    obtain ⟨hb, rfl⟩ := List.getElem?_eq_some.mp hy
    have := (List.pairwise_iff_getElem.mp hs) a b ha hb h
    exact (compare_ints_le _ _).mp this

theorem skip_repeated_spec (s : List Int) (i : Int) (hi : 0 ≤ i) :
    ∀ (fuel k : Nat), k ≤ s.length → s.length - k < fuel →
      ∃ k1, skip_repeated s i fuel k = some (k1, (s[k1]?).getD (-1)) ∧ k < k1 ∧
        (∀ m, k < m → m < k1 → s[m]? = some i) ∧ s[k1]? ≠ some i := by
  intro fuel
  induction fuel with
  | zero => intro k _ h; omega
  | succ fuel ih =>
    intro k hk hf
    by_cases hnext : (s[k + 1]?).getD (-1) = i
    · have hsome : s[k + 1]? = some i := by
        cases h : s[k + 1]? with
        | none => rw [h] at hnext; simp at hnext; omega
        | some v => rw [h] at hnext; simpa using hnext
      have hlt : k + 1 < s.length := (List.getElem?_eq_some.mp hsome).1
      obtain ⟨k1, h1, h2, h3, h4⟩ := ih (k + 1) (by omega) (by omega)
      refine ⟨k1, ?_, by omega, ?_, h4⟩
      · simp only [skip_repeated, hnext, if_true]
        exact h1
      · intro m hm1 hm2
        by_cases hm : m = k + 1
        · subst hm; exact hsome
        · exact h3 m (by omega) hm2
    · refine ⟨k + 1, ?_, by omega, ?_, ?_⟩
      · simp only [skip_repeated, hnext, if_false]
      · intro m hm1 hm2; omega
      · intro h; rw [h] at hnext; simp at hnext

theorem kept_slots_succ_mem (orig : List (Option Column)) (l : List Int) (i : Nat)
    (h : (i : Int) ∈ l) : kept_slots orig l (i + 1) = kept_slots orig l i := by
  simp [kept_slots, List.range_succ, List.filter_append, h]

theorem kept_slots_succ_not_mem (orig : List (Option Column)) (l : List Int) (i : Nat)
    (h : (i : Int) ∉ l) :
    kept_slots orig l (i + 1) = kept_slots orig l i ++ [orig.getD i none] := by
  simp [kept_slots, List.range_succ, List.filter_append, h]

theorem released_slots_succ_mem (orig : List (Option Column)) (l : List Int) (i : Nat)
    (h : (i : Int) ∈ l) :
    released_slots orig l (i + 1)
      = released_slots orig l i ++ [(orig.getD i none).map column_decref] := by
  simp [released_slots, List.range_succ, List.filter_append, h]

theorem released_slots_succ_not_mem (orig : List (Option Column)) (l : List Int) (i : Nat)
    (h : (i : Int) ∉ l) : released_slots orig l (i + 1) = released_slots orig l i := by
  simp [released_slots, List.range_succ, List.filter_append, h]

theorem take_set_of_le {α : Type} (l : List α) (j i : Nat) (a : α) (h : j ≤ i) :
    (l.set i a).take j = l.take j := by
  apply List.ext_getElem?
  intro n
  simp only [List.getElem?_take, List.getElem?_set]
  split_ifs <;> first | rfl | omega

theorem take_succ_set {α : Type} (l : List α) (j : Nat) (a : α) (h : j < l.length) :
    (l.set j a).take (j + 1) = l.take j ++ [a] := by
  rw [List.take_succ, take_set_of_le _ _ _ _ le_rfl, List.getElem?_set_self (by simpa using h)]
  rfl


theorem delete_body_step (orig : List (Option Column)) (l : List Int) (i : Nat)
    (st : DelState) (hi : i < orig.length)
    (hinv : DelInv orig l (qsort compare_ints l) i st) :
    ∃ st1, delete_body (qsort compare_ints l) i st = some st1 ∧
      DelInv orig l (qsort compare_ints l) (i + 1) st1 := by
  have hci : st.columns[i]? = orig[i]? := hinv.back i le_rfl
  obtain ⟨c, hc⟩ : ∃ c, orig[i]? = some c := ⟨orig[i], List.getElem?_eq_getElem hi⟩
  have hgetD : orig.getD i none = c := by
    rw [List.getD_eq_getElem?_getD, hc]; rfl
  by_cases hnext : (i : Int) = st.next_col_to_remove
  · -- slot `i` is removed
    have hk : (qsort compare_ints l)[st.k]? = some (i : Int) := by
      have h1 := hinv.next_eq
      rw [← hnext] at h1
      cases h : (qsort compare_ints l)[st.k]? with
      | none => rw [h] at h1; simp at h1
      | some v => rw [h] at h1; simp at h1; rw [h1]
    have hmem : (i : Int) ∈ l := (qsort_mem l i).mpr ⟨st.k, hk⟩
    have hklt : st.k < (qsort compare_ints l).length := (List.getElem?_eq_some.mp hk).1
    obtain ⟨k1, h1, h2, h3, h4⟩ :=
      skip_repeated_spec (qsort compare_ints l) (i : Int) (by omega)
        ((qsort compare_ints l).length + 1) st.k (by omega) (by omega)
    have hbody : delete_body (qsort compare_ints l) i st
        = some { columns := st.columns.set i none, j := st.j,
                 next_col_to_remove := ((qsort compare_ints l)[k1]?).getD (-1),
                 k := k1, released := st.released ++ [c.map column_decref] } := by
      simp only [delete_body, hci, hc, hnext, if_true]
      rw [← hnext, h1]
    refine ⟨_, hbody, ?_⟩
    · constructor
      · simpa using hinv.len
      · have := hinv.j_le; simp only; omega
      · simp only
        rw [take_set_of_le _ _ _ _ hinv.j_le, kept_slots_succ_mem _ _ _ hmem]
        exact hinv.front
      · simp only
        rw [kept_slots_succ_mem _ _ _ hmem]
        exact hinv.j_eq
      · intro m hm
        simp only
        rw [List.getElem?_set_ne (by omega)]
        exact hinv.back m (by omega)
      · intro m x hx hm
        simp only at hm
        rcases Nat.lt_trichotomy m st.k with h | h | h
        · have := hinv.k_lt m x hx h; push_cast; omega
        · subst h; rw [hk] at hx; injection hx with hx; push_cast; omega
        · have := h3 m h hm; rw [this] at hx; injection hx with hx; push_cast; omega
      · intro m x hx hm
        simp only at hm
        have hge := hinv.k_ge m x hx (by omega)
        have hne : x ≠ (i : Int) := by
          intro hxi
          have hmlt : m < (qsort compare_ints l).length := (List.getElem?_eq_some.mp hx).1
          have hk1 : (qsort compare_ints l)[k1]? = some ((qsort compare_ints l)[k1]) :=
            List.getElem?_eq_getElem (by omega)
          have hle := qsort_sorted l k1 m _ x hm hk1 hx
          have hge1 := hinv.k_ge k1 _ hk1 (by omega)
          apply h4
          rw [hk1]
          congr 1
          omega
        push_cast
        omega
      · rfl
      · simp only
        rw [released_slots_succ_mem _ _ _ hmem, hgetD, hinv.rel]
  · -- slot `i` is kept
    have hmem : (i : Int) ∉ l := by
      intro hin
      obtain ⟨m, hm⟩ := (qsort_mem l i).mp hin
      have hmlt : m < (qsort compare_ints l).length := (List.getElem?_eq_some.mp hm).1
      by_cases hmk : m < st.k
      · have := hinv.k_lt m _ hm hmk; omega
      · have hk : (qsort compare_ints l)[st.k]? = some ((qsort compare_ints l)[st.k]) :=
          List.getElem?_eq_getElem (by omega)
        have hle := qsort_sorted l st.k m _ _ (by omega) hk hm
        have hge := hinv.k_ge st.k _ hk le_rfl
        apply hnext
        rw [hinv.next_eq, hk]
        simp only [Option.getD_some]
        omega
    have hjlt : st.j < st.columns.length := by
      have := hinv.j_le; have := hinv.len; omega
    have hbody : delete_body (qsort compare_ints l) i st
        = some { st with columns := st.columns.set st.j c, j := st.j + 1 } := by
      simp only [delete_body, hci, hc, hnext, if_false]
    refine ⟨_, hbody, ?_⟩
    · constructor
      · simpa using hinv.len
      · have := hinv.j_le; simp only; omega
      · simp only
        rw [take_succ_set _ _ _ hjlt, kept_slots_succ_not_mem _ _ _ hmem, hgetD, hinv.front]
      · simp only
        rw [kept_slots_succ_not_mem _ _ _ hmem, List.length_append, ← hinv.j_eq]
        rfl
      · intro m hm
        simp only
        have := hinv.j_le
        rw [List.getElem?_set_ne (by omega)]
        exact hinv.back m (by omega)
      · intro m x hx hm
        have := hinv.k_lt m x hx hm; push_cast; omega
      · intro m x hx hm
        have hge := hinv.k_ge m x hx hm
        have hne : x ≠ (i : Int) := by
          intro hxi
          apply hmem
          exact (qsort_mem l i).mpr ⟨m, by rw [hx, hxi]⟩
        push_cast
        omega
      · exact hinv.next_eq
      · simp only
        rw [released_slots_succ_not_mem _ _ _ hmem]
        exact hinv.rel


theorem delete_loop_inv (orig : List (Option Column)) (l : List Int) (first : Int)
    (hfirst : (qsort compare_ints l)[0]? = some first) (hpos : ∀ x ∈ l, (0 : Int) ≤ x) :
    ∀ i, i ≤ orig.length →
      ∃ st, for_loop (delete_body (qsort compare_ints l))
          { columns := orig, j := 0, next_col_to_remove := first, k := 0, released := [] } i
            = some st ∧
        DelInv orig l (qsort compare_ints l) i st := by
  intro i
  induction i with
  | zero =>
    intro _
    refine ⟨_, rfl, ?_⟩
    constructor
    · rfl
    · exact le_rfl
    · simp [kept_slots]
    · simp [kept_slots]
    · intro m _; rfl
    · intro m x _ hm; simp at hm
    · intro m x hx _
      have : x ∈ l := (qsort_mem l x).mpr ⟨m, hx⟩
      simpa using hpos x this
    · simp [hfirst]
    · simp [released_slots]
  | succ i ih =>
    intro hi
    obtain ⟨st, hst, hinv⟩ := ih (by omega)
    obtain ⟨st1, hb, hinv1⟩ := delete_body_step orig l i st (by omega) hinv
    exact ⟨st1, by simp only [for_loop, hst]; exact hb, hinv1⟩

theorem removed_count (l : List Int) (n : Nat) (h : ∀ x ∈ l, (0 : Int) ≤ x ∧ x < n) :
    ((List.range n).filter (fun (x : Nat) => decide ((x : Int) ∈ l))).length
      = l.dedup.length := by
  have hperm : (((List.range n).filter (fun (x : Nat) => decide ((x : Int) ∈ l))).map
      (fun (x : Nat) => (x : Int))).Perm l.dedup := by
    rw [List.perm_ext_iff_of_nodup]
    · intro a
      simp only [List.mem_map, List.mem_filter, List.mem_range, decide_eq_true_eq,
        List.mem_dedup]
      constructor
      · rintro ⟨x, ⟨_, hx⟩, rfl⟩; exact hx
      · intro ha
        obtain ⟨h0, h1⟩ := h a ha
        refine ⟨a.toNat, ⟨by omega, ?_⟩, by omega⟩
        rw [Int.toNat_of_nonneg h0]; exact ha
    · exact List.Nodup.map (fun a b hab => by simpa using hab)
        (List.Nodup.filter _ (List.nodup_range n))
    · exact List.nodup_dedup l
  have := hperm.length_eq
  simpa using this

theorem kept_slots_length (orig : List (Option Column)) (l : List Int) (n : Nat)
    (h : ∀ x ∈ l, (0 : Int) ≤ x ∧ x < n) :
    (kept_slots orig l n).length + l.dedup.length = n := by
  have h1 := List.length_eq_length_filter_add
    (l := List.range n) (fun (x : Nat) => decide ((x : Int) ∈ l))
  rw [removed_count l n h] at h1
  simp only [List.length_range] at h1
  simp only [kept_slots, List.length_map]
  have h2 : (fun (x : Nat) => !decide ((x : Int) ∈ l))
      = (fun (x : Nat) => decide ((x : Int) ∉ l)) := by
    funext x; simp
  rw [h2] at h1
  omega

theorem kept_slots_nil (orig : List (Option Column)) (n : Nat) (h : n ≤ orig.length) :
    kept_slots orig [] n = orig.take n := by
  apply List.ext_getElem?
  intro m
  simp only [kept_slots, List.not_mem_nil, not_false_eq_true, decide_True, List.filter_true,
    List.getElem?_map, List.getElem?_take, List.getD_eq_getElem?_getD]
  by_cases hm : m < n
  · have hm1 : m < orig.length := by omega
    simp [hm, List.getElem?_range hm, List.getElem?_eq_getElem hm1]
  · simp [hm, List.getElem?_eq_none (l := List.range n) (by simpa using hm)]

/-- The whole effect of `dt_delete_columns` for a non-empty list of non-negative
indices: the array becomes the kept slots among `0 .. ncols` and the released
columns are those at the listed positions. -/
theorem dt_delete_columns_eq (dt : DataTable) (n : Nat) (l : List Int)
    (hn : dt.ncols = (n : Int)) (hlen : n + 1 ≤ dt.columns.length)
    (hne : l ≠ []) (hpos : ∀ x ∈ l, (0 : Int) ≤ x) :
    dt_delete_columns dt l
      = some ({ dt with ncols := ((kept_slots dt.columns l (n + 1)).length : Int) - 1,
                        columns := kept_slots dt.columns l (n + 1) },
              released_slots dt.columns l (n + 1)) := by
  have hl : l.length ≠ 0 := by simpa using hne
  have hs0 : 0 < (qsort compare_ints l).length := by rw [qsort_length]; omega
  have hfirst : (qsort compare_ints l)[0]? = some ((qsort compare_ints l)[0]) :=
    List.getElem?_eq_getElem hs0
  obtain ⟨st, hst, hinv⟩ := delete_loop_inv dt.columns l _ hfirst hpos (n + 1) hlen
  have hN : (dt.ncols + 1).toNat = n + 1 := by rw [hn]; omega
  simp only [dt_delete_columns, hl, if_false, hfirst, hN, hst]
  rw [hinv.front, hinv.rel, hinv.j_eq]

/-- C1. For a table with `n` columns (slots `0 .. n` of the array exist) and an
index list `l`, in any order and with repetitions, whose entries lie in
`0 .. n-1`, `dt_delete_columns` returns the table with the other fields
unchanged, whose first `ncols` slots are the original columns at the positions
not listed, in their original order, and whose `ncols` is `n` minus the number
of distinct listed indices. -/
theorem dt_delete_columns_spec (dt : DataTable) (n : Nat) (l : List Int)
    (hn : dt.ncols = (n : Int)) (hlen : n + 1 ≤ dt.columns.length)
    (hrange : ∀ x ∈ l, (0 : Int) ≤ x ∧ x < n) :
    ∃ t released, dt_delete_columns dt l = some (t, released) ∧
      t.nrows = dt.nrows ∧ t.rowindex = dt.rowindex ∧
      t.ncols = (n : Int) - (l.dedup.length : Int) ∧
      t.columns.take (n - l.dedup.length)
        = ((List.range n).filter (fun (x : Nat) => decide ((x : Int) ∉ l))).map
            (fun x => dt.columns.getD x none) := by
  have hk := kept_slots_length dt.columns l n hrange
  by_cases hne : l = []
  · subst hne
    refine ⟨dt, [], by simp [dt_delete_columns], rfl, rfl, by simpa using hn, ?_⟩
    have := kept_slots_nil dt.columns n (by omega)
    simp only [kept_slots] at this
    simpa using this.symm
  · have hrange1 : ∀ x ∈ l, (0 : Int) ≤ x ∧ x < ((n + 1 : Nat) : Int) := by
      intro x hx; have := hrange x hx; push_cast; omega
    have hk1 := kept_slots_length dt.columns l (n + 1) hrange1
    have hnot : ((n : Nat) : Int) ∉ l := by
      intro h; have := hrange _ h; omega
    refine ⟨_, _, dt_delete_columns_eq dt n l hn hlen hne (fun x hx => (hrange x hx).1),
      rfl, rfl, ?_, ?_⟩
    · simp only; omega
    · simp only
      rw [kept_slots_succ_not_mem _ _ _ hnot]
      have hlen2 : n - l.dedup.length = (kept_slots dt.columns l n).length := by omega
      rw [hlen2, List.take_left']
      · rfl
      · rfl


/-! ## `datatable_apply_na_mask` : properties -/

theorem for_loop_fixed_point {σ : Type} (body : Nat → σ → Option σ) (s : σ) (n : Nat)
    (h : ∀ i, i < n → body i s = some s) : for_loop body s n = some s := by
  induction n with
  | zero => rfl
  | succ n ih =>
    simp only [for_loop, ih (fun i hi => h i (by omega)), Option.bind_some]
    exact h n (by omega)

theorem for_loop_succ_some {σ : Type} (body : Nat → σ → Option σ) (init out : σ) (n : Nat)
    (h : for_loop body init (n + 1) = some out) :
    ∃ mid, for_loop body init n = some mid ∧ body n mid = some out := by
  simp only [for_loop] at h
  cases hprev : for_loop body init n with
  | none => rw [hprev] at h; simp at h
  | some mid => rw [hprev] at h; exact ⟨mid, rfl, h⟩

theorem set_eq_self {α : Type} (l : List α) (i : Nat) (a : α) (h : l[i]? = some a) :
    l.set i a = l := by
  apply List.ext_getElem?
  intro n
  rw [List.getElem?_set]
  split_ifs with h1 h2
  · subst h1; exact h.symm
  · subst h1; rw [List.getElem?_eq_none (by omega)]
  · rfl

theorem fixed_body_some (mdata : List Nat) (na j : Nat) (cdata out : List Nat)
    (h : fixed_body mdata na j cdata = some out) :
    ∃ m, mdata[j]? = some m ∧
      ((m ≠ 0 ∧ j < cdata.length ∧ out = cdata.set j na) ∨ (m = 0 ∧ out = cdata)) := by
  unfold fixed_body at h
  cases hm : mdata[j]? with
  | none => rw [hm] at h; simp at h
  | some m =>
    rw [hm] at h
    refine ⟨m, rfl, ?_⟩
    by_cases h0 : m = 0
    · right; simp [h0] at h; exact ⟨h0, h.symm⟩
    · left
      by_cases hj : j < cdata.length
      · simp [h0, hj] at h; exact ⟨h0, hj, h.symm⟩
      · simp [h0, hj] at h

/-- What a completed fixed-width scan of `n` rows leaves in the buffer. -/
theorem fixed_loop_spec (mdata : List Nat) (na : Nat) (cdata : List Nat) :
    ∀ (n : Nat) (out : List Nat), for_loop (fixed_body mdata na) cdata n = some out →
      out.length = cdata.length ∧
      (∀ i, n ≤ i → out[i]? = cdata[i]?) ∧
      (∀ i, i < n → ∃ m, mdata[i]? = some m ∧
        (m ≠ 0 → out[i]? = some na) ∧ (m = 0 → out[i]? = cdata[i]?)) := by
  intro n
  induction n with
  | zero =>
    intro out h
    simp only [for_loop, Option.some.injEq] at h
    subst h
    exact ⟨rfl, fun _ _ => rfl, fun i hi => absurd hi (by omega)⟩
  | succ n ih =>
    intro out h
    obtain ⟨mid, hprev, h⟩ := for_loop_succ_some _ _ _ _ h
    obtain ⟨hlen, hback, hfront⟩ := ih mid hprev
    obtain ⟨m, hm, hcase⟩ := fixed_body_some _ _ _ _ _ h
    rcases hcase with ⟨hm0, hj, rfl⟩ | ⟨hm0, rfl⟩
    · refine ⟨by simpa using hlen, ?_, ?_⟩
      · intro i hi
        rw [List.getElem?_set_ne (by omega)]
        exact hback i (by omega)
      · intro i hi
        by_cases hin : i = n
        · subst hin
          exact ⟨m, hm, fun _ => List.getElem?_set_self hj, fun h0 => absurd h0 hm0⟩
        · obtain ⟨m1, h1, h2, h3⟩ := hfront i (by omega)
          refine ⟨m1, h1, ?_, ?_⟩
          · intro hne; rw [List.getElem?_set_ne (by omega)]; exact h2 hne
          · intro he; rw [List.getElem?_set_ne (by omega)]; exact h3 he
    · refine ⟨hlen, fun i hi => hback i (by omega), ?_⟩
      intro i hi
      by_cases hin : i = n
      · subst hin
        exact ⟨m, hm, fun hne => absurd hm0 hne, fun _ => hback i le_rfl⟩
      · exact hfront i (by omega)

/-- A fixed-width scan of `n` rows is defined when the mask buffer and the
target buffer hold `n` cells. -/
theorem fixed_loop_defined (mdata : List Nat) (na : Nat) (cdata : List Nat) (n : Nat)
    (hm : n ≤ mdata.length) (hc : n ≤ cdata.length) :
    ∃ out, for_loop (fixed_body mdata na) cdata n = some out := by
  induction n with
  | zero => exact ⟨cdata, rfl⟩
  | succ n ih =>
    obtain ⟨mid, hmid⟩ := ih (by omega) (by omega)
    obtain ⟨hlen, _, _⟩ := fixed_loop_spec mdata na cdata n mid hmid
    have hn : mdata[n]? = some mdata[n] := List.getElem?_eq_getElem (by omega)
    by_cases h0 : mdata[n] = 0
    · exact ⟨mid, by simp [for_loop, hmid, fixed_body, hn, h0]⟩
    · have hlt : n < mid.length := by omega
      exact ⟨mid.set n na, by simp [for_loop, hmid, fixed_body, hn, h0, hlt]⟩

/-- A completed fixed-width scan, run again on its result, changes nothing. -/
theorem fixed_loop_idem (mdata : List Nat) (na : Nat) (cdata out : List Nat) (n : Nat)
    (h : for_loop (fixed_body mdata na) cdata n = some out) :
    for_loop (fixed_body mdata na) out n = some out := by
  obtain ⟨_, _, hfront⟩ := fixed_loop_spec mdata na cdata n out h
  apply for_loop_fixed_point
  intro i hi
  obtain ⟨m, hm, h1, _⟩ := hfront i hi
  unfold fixed_body
  rw [hm]
  by_cases h0 : m = 0
  · simp [h0]
  · have hs := h1 h0
    have hlt : i < out.length := (List.getElem?_eq_some.mp hs).1
    simp [h0, hlt, set_eq_self _ _ _ hs]


theorem abs32_some (x y : Int) (h : abs32 x = some y) :
    -2147483648 < x ∧ x ≤ 2147483647 ∧ y = (if x < 0 then -x else x) := by
  unfold abs32 at h
  by_cases h1 : -2147483648 < x ∧ x ≤ 2147483647
  · rw [if_pos h1] at h
    injection h with h
    exact ⟨h1.1, h1.2, h.symm⟩
  · rw [if_neg h1] at h
    exact absurd h (by simp)

theorem abs32_neg_abs (x y : Int) (h : abs32 x = some y) : abs32 (-y) = some y := by
  obtain ⟨h1, h2, h3⟩ := abs32_some x y h
  unfold abs32
  split_ifs at h3 <;> subst h3 <;> split_ifs <;> first | rfl | omega | (congr 1; omega)

/-- What one defined iteration of the string pass reads and writes in the
offsets. -/
theorem string_body_some (mdata : List Nat) (m1 : Int) (j : Nat) (s s1 : StrState)
    (h : string_body mdata m1 j s = some s1) :
    ∃ offi prev offp m b, s.offdata[j]? = some offi ∧
      (if j = 0 then some m1 else s.offdata[j - 1]?) = some prev ∧
      abs32 prev = some offp ∧ mdata[j]? = some m ∧
      s1.offdata = s.offdata.set j b ∧ (m ≠ 0 → b = -offp) := by
  unfold string_body at h
  cases h1 : s.offdata[j]? with
  | none => simp [h1] at h
  | some offi =>
    cases h2 : (if j = 0 then some m1 else s.offdata[j - 1]?) with
    | none => simp [h1, h2] at h
    | some prev =>
      cases h3 : mdata[j]? with
      | none => simp [h1, h2, h3] at h
      | some m =>
        cases h4 : abs32 prev with
        | none => simp [h1, h2, h3, h4] at h
        | some offp =>
          simp only [h1, h2, h3, h4] at h
          by_cases hm : m = 0
          · by_cases hd : s.doffset = 0
            · simp [hm, hd] at h
              subst h
              exact ⟨offi, prev, offp, m, offi, rfl, rfl, h4, rfl,
                (set_eq_self _ _ _ h1).symm, fun hne => absurd hm hne⟩
            · by_cases ho : offi > 0
              · simp only [hm, hd, ho, ne_eq, not_true_eq_false, not_false_eq_true,
                  if_true, if_false] at h
                split at h
                · rename_i o str _ _
                  injection h with h
                  subst h
                  exact ⟨offi, prev, offp, m, o, rfl, rfl, h4, rfl, rfl,
                    fun hne => absurd hm hne⟩
                · simp at h
              · simp only [hm, hd, ho, ne_eq, not_true_eq_false, not_false_eq_true,
                  if_true, if_false] at h
                injection h with h
                subst h
                exact ⟨offi, prev, offp, m, -offp, rfl, rfl, h4, rfl, rfl,
                  fun hne => absurd hm hne⟩
          · simp only [hm, ne_eq, not_false_eq_true, if_true] at h
            split at h
            · simp at h
            · split at h
              · simp at h
              · injection h with h
                subst h
                exact ⟨offi, prev, offp, m, -offp, rfl, rfl, h4, rfl, rfl, fun _ => rfl⟩


/-- What a completed string pass over `n` rows leaves in the offsets: every row
was readable, the magnitude of its predecessor was defined, and a masked row
holds the negated magnitude of its predecessor. -/
theorem string_loop_spec (mdata : List Nat) (m1 : Int) (s0 : StrState) :
    ∀ (n : Nat) (s : StrState), for_loop (string_body mdata m1) s0 n = some s →
      s.offdata.length = s0.offdata.length ∧
      (∀ j, n ≤ j → s.offdata[j]? = s0.offdata[j]?) ∧
      (∀ j, j < n → ∃ b prev offp m, s.offdata[j]? = some b ∧
        (if j = 0 then some m1 else s.offdata[j - 1]?) = some prev ∧
        abs32 prev = some offp ∧ mdata[j]? = some m ∧ (m ≠ 0 → b = -offp)) := by
  intro n
  induction n with
  | zero =>
    intro s h
    simp only [for_loop, Option.some.injEq] at h
    subst h
    exact ⟨rfl, fun _ _ => rfl, fun j hj => absurd hj (by omega)⟩
  | succ n ih =>
    intro s h
    obtain ⟨mid, hprev, h⟩ := for_loop_succ_some _ _ _ _ h
    obtain ⟨hlen, hback, hfront⟩ := ih mid hprev
    obtain ⟨offi, prev, offp, m, b, h1, h2, h3, h4, h5, h6⟩ := string_body_some _ _ _ _ _ h
    have hn : n < mid.offdata.length := (List.getElem?_eq_some.mp h1).1
    refine ⟨by rw [h5]; simpa using hlen, ?_, ?_⟩
    · intro j hj
      rw [h5, List.getElem?_set_ne (by omega)]
      exact hback j (by omega)
    · intro j hj
      by_cases hjn : j = n
      · subst hjn
        refine ⟨b, prev, offp, m, ?_, ?_, h3, h4, h6⟩
        · rw [h5]; exact List.getElem?_set_self hn
        · rw [h5]
          by_cases hj0 : j = 0
          · simpa [hj0] using h2
          · simp only [hj0, if_false] at h2 ⊢
            rw [List.getElem?_set_ne (by omega)]
            exact h2
      · obtain ⟨b1, prev1, offp1, mm, g1, g2, g3, g4, g5⟩ := hfront j (by omega)
        refine ⟨b1, prev1, offp1, mm, ?_, ?_, g3, g4, g5⟩
        · rw [h5, List.getElem?_set_ne (by omega)]; exact g1
        · rw [h5]
          by_cases hj0 : j = 0
          · simpa [hj0] using g2
          · simp only [hj0, if_false] at g2 ⊢
            rw [List.getElem?_set_ne (by omega)]
            exact g2

/-- A completed string pass, run again on its result with the same mask, moves
no byte and rewrites every offset to the value it already has. -/
theorem string_loop_idem (mdata : List Nat) (m1 : Int) (s0 s : StrState) (n : Nat)
    (h : for_loop (string_body mdata m1) s0 n = some s) :
    for_loop (string_body mdata m1)
        { offdata := s.offdata, strdata := s.strdata, doffset := 0 } n
      = some { offdata := s.offdata, strdata := s.strdata, doffset := 0 } := by
  obtain ⟨_, _, hfront⟩ := string_loop_spec mdata m1 s0 n s h
  apply for_loop_fixed_point
  intro j hj
  obtain ⟨b, prev, offp, m, h1, h2, h3, h4, h5⟩ := hfront j hj
  unfold string_body
  simp only [h1, h2, h3, h4]
  by_cases hm : m = 0
  · simp [hm]
  · have hb := h5 hm
    subst hb
    have habs := abs32_neg_abs prev offp h3
    have hset := set_eq_self _ _ _ h1
    simp [hm, habs, int32, hset]


theorem fixed_case_done (col : Column) (mdata : List Nat) (nrows : Int) (na : Nat)
    (col1 : Column) (h : fixed_case col mdata nrows na = ColStep.done col1) :
    ∃ out, for_loop (fixed_body mdata na) col.data nrows.toNat = some out ∧
      col1 = { col with data := out } := by
  unfold fixed_case at h
  cases hl : for_loop (fixed_body mdata na) col.data nrows.toNat with
  | none => rw [hl] at h; simp at h
  | some out =>
    rw [hl] at h
    simp only [ColStep.done.injEq] at h
    exact ⟨out, rfl, h.symm⟩

theorem string_case_done (col : Column) (mdata : List Nat) (nrows : Int)
    (col1 : Column) (h : string_case col mdata nrows = ColStep.done col1) :
    ∃ s, for_loop (string_body mdata col.offdata_m1)
        { offdata := col.offdata, strdata := col.strdata, doffset := 0 } nrows.toNat = some s ∧
      col1 = { col with offdata := s.offdata, strdata := s.strdata } := by
  unfold string_case at h
  cases hl : for_loop (string_body mdata col.offdata_m1)
      { offdata := col.offdata, strdata := col.strdata, doffset := 0 } nrows.toNat with
  | none => rw [hl] at h; simp at h
  | some s =>
    rw [hl] at h
    simp only [ColStep.done.injEq] at h
    exact ⟨s, rfl, h.symm⟩

theorem fixed_case_idem (col : Column) (mdata : List Nat) (nrows : Int) (na : Nat)
    (col1 : Column) (h : fixed_case col mdata nrows na = ColStep.done col1) :
    fixed_case col1 mdata nrows na = ColStep.done col1 := by
  obtain ⟨out, hl, rfl⟩ := fixed_case_done _ _ _ _ _ h
  simp only [fixed_case, fixed_loop_idem _ _ _ _ _ hl]

theorem string_case_idem (col : Column) (mdata : List Nat) (nrows : Int)
    (col1 : Column) (h : string_case col mdata nrows = ColStep.done col1) :
    string_case col1 mdata nrows = ColStep.done col1 := by
  obtain ⟨s, hl, rfl⟩ := string_case_done _ _ _ _ h
  simp only [string_case, string_loop_idem _ _ _ _ _ hl]

/-- The `switch` keeps the kind of the column. -/
theorem apply_na_mask_column_stype (na : NAValues) (col : Column) (mdata : List Nat)
    (nrows : Int) (col1 : Column)
    (h : apply_na_mask_column na col mdata nrows = ColStep.done col1) :
    col1.stype = col.stype := by
  unfold apply_na_mask_column at h
  split at h
  all_goals first
    | (obtain ⟨out, _, rfl⟩ := fixed_case_done _ _ _ _ _ h; rfl)
    | (obtain ⟨s, _, rfl⟩ := string_case_done _ _ _ _ h; rfl)
    | (exact absurd h (by simp))

/-- One column: a second run of the `switch` on the result of a completed one
gives the same column. -/
theorem apply_na_mask_column_idem (na : NAValues) (col : Column) (mdata : List Nat)
    (nrows : Int) (col1 : Column)
    (h : apply_na_mask_column na col mdata nrows = ColStep.done col1) :
    apply_na_mask_column na col1 mdata nrows = ColStep.done col1 := by
  have hst := apply_na_mask_column_stype na col mdata nrows col1 h
  unfold apply_na_mask_column at h ⊢
  rw [hst]
  split at h
  all_goals first
    | exact fixed_case_idem _ _ _ _ _ h
    | exact string_case_idem _ _ _ _ h
    | exact absurd h (by simp)

theorem apply_columns_succ_ok (na : NAValues) (mask : DataTable) (nrows : Int)
    (cols cols1 : List (Option Column)) (n : Nat)
    (h : apply_columns na mask nrows cols (n + 1) = (Status.ok, cols1)) :
    ∃ mid col mcol col1, apply_columns na mask nrows cols n = (Status.ok, mid) ∧
      mid[n]? = some (some col) ∧ mask.columns[n]? = some (some mcol) ∧
      apply_na_mask_column na col mcol.data nrows = ColStep.done col1 ∧
      cols1 = mid.set n (some col1) := by
  simp only [apply_columns] at h
  rcases hprev : apply_columns na mask nrows cols n with ⟨st, mid⟩
  rw [hprev] at h
  cases st with
  | ok =>
    simp only at h
    rcases h1 : mid[n]? with _ | _ | col
    · simp [h1] at h
    · simp [h1] at h
    · rcases h2 : mask.columns[n]? with _ | _ | mcol
      · simp [h1, h2] at h
      · simp [h1, h2] at h
      · simp only [h1, h2] at h
        cases h3 : apply_na_mask_column na col mcol.data nrows with
        | done col1 =>
          rw [h3] at h
          simp only [Prod.mk.injEq, true_and] at h
          exact ⟨mid, col, mcol, col1, rfl, h1, rfl, h3, h.symm⟩
        | unsupported st => rw [h3] at h; simp at h
        | undefined => rw [h3] at h; simp at h
  | null => simp at h
  | raised e => simp at h
  | undefined => simp at h

/-- What a completed pass over the first `n` target columns leaves in the
column array. -/
theorem apply_columns_ok (na : NAValues) (mask : DataTable) (nrows : Int)
    (cols : List (Option Column)) :
    ∀ (n : Nat) (cols1 : List (Option Column)),
      apply_columns na mask nrows cols n = (Status.ok, cols1) →
      cols1.length = cols.length ∧
      (∀ c, n ≤ c → cols1[c]? = cols[c]?) ∧
      (∀ c, c < n → ∃ col mcol col1, cols[c]? = some (some col) ∧
        mask.columns[c]? = some (some mcol) ∧
        apply_na_mask_column na col mcol.data nrows = ColStep.done col1 ∧
        cols1[c]? = some (some col1)) := by
  intro n
  induction n with
  | zero =>
    intro cols1 h
    simp only [apply_columns, Prod.mk.injEq, true_and] at h
    subst h
    exact ⟨rfl, fun _ _ => rfl, fun c hc => absurd hc (by omega)⟩
  | succ n ih =>
    intro cols1 h
    obtain ⟨mid, col, mcol, col1, hprev, h1, h2, h3, rfl⟩ :=
      apply_columns_succ_ok _ _ _ _ _ _ h
    obtain ⟨hlen, hback, hfront⟩ := ih mid hprev
    have hn : n < mid.length := (List.getElem?_eq_some.mp h1).1
    refine ⟨by simpa using hlen, ?_, ?_⟩
    · intro c hc
      rw [List.getElem?_set_ne (by omega)]
      exact hback c (by omega)
    · intro c hc
      by_cases hcn : c = n
      · subst hcn
        refine ⟨col, mcol, col1, ?_, h2, h3, List.getElem?_set_self hn⟩
        rw [← hback c le_rfl]; exact h1
      · obtain ⟨a, b, d, g1, g2, g3, g4⟩ := hfront c (by omega)
        refine ⟨a, b, d, g1, g2, g3, ?_⟩
        rw [List.getElem?_set_ne (by omega)]; exact g4

theorem apply_columns_fixed_point (na : NAValues) (mask : DataTable) (nrows : Int)
    (cols : List (Option Column)) (n : Nat)
    (h : ∀ c, c < n → ∃ col mcol, cols[c]? = some (some col) ∧
      mask.columns[c]? = some (some mcol) ∧
      apply_na_mask_column na col mcol.data nrows = ColStep.done col) :
    apply_columns na mask nrows cols n = (Status.ok, cols) := by
  induction n with
  | zero => rfl
  | succ n ih =>
    obtain ⟨col, mcol, h1, h2, h3⟩ := h n (by omega)
    simp only [apply_columns, ih (fun c hc => h c (by omega)), h1, h2, h3,
      set_eq_self _ _ _ h1]


theorem to_int_eq (x : Int) (h0 : -2147483648 ≤ x) (h1 : x ≤ 2147483647) : to_int x = x := by
  unfold to_int
  omega

/-- A call that returns the target passed the three checks and completed the
pass over the columns; only the column array of the target differs. -/
theorem apply_ok_unfold (na : NAValues) (t m t1 : DataTable)
    (h : datatable_apply_na_mask na (some t) (some m)
      = { status := Status.ok, dt := some t1 }) :
    t.ncols = m.ncols ∧ t.nrows = m.nrows ∧ t.rowindex = none ∧ m.rowindex = none ∧
    mask_check m (to_int t.ncols).toNat = MaskCheck.pass ∧
    apply_columns na m t.nrows t.columns (to_int t.ncols).toNat = (Status.ok, t1.columns) ∧
    t1 = { t with columns := t1.columns } := by
  simp only [datatable_apply_na_mask] at h
  by_cases hshape : t.ncols ≠ m.ncols ∨ t.nrows ≠ m.nrows
  · rw [if_pos hshape] at h; simp at h
  · rw [if_neg hshape] at h
    by_cases hview : t.rowindex.isSome = true ∨ m.rowindex.isSome = true
    · rw [if_pos hview] at h; simp at h
    · rw [if_neg hview] at h
      have hs1 : t.ncols = m.ncols := by
        by_contra hne; exact hshape (Or.inl hne)
      have hs2 : t.nrows = m.nrows := by
        by_contra hne; exact hshape (Or.inr hne)
      have hv1 : t.rowindex = none := by
        cases hr : t.rowindex with
        | none => rfl
        | some r => exact absurd (Or.inl (by simp [hr])) hview
      have hv2 : m.rowindex = none := by
        cases hr : m.rowindex with
        | none => rfl
        | some r => exact absurd (Or.inr (by simp [hr])) hview
      cases hchk : mask_check m (to_int t.ncols).toNat with
      | fail i => rw [hchk] at h; simp at h
      | undefined => rw [hchk] at h; simp at h
      | pass =>
        rw [hchk] at h
        simp only [Outcome.mk.injEq, Option.some.injEq] at h
        obtain ⟨h1, h2⟩ := h
        subst h2
        refine ⟨hs1, hs2, hv1, hv2, rfl, ?_, rfl⟩
        exact Prod.ext h1 rfl

/-- Tables by value: when a call with `mask` returns the target, a second call
on the result, with the mask at the value it had before the first call, returns
it again with every column (cells, offsets, blob bytes) as the first call left
it.  A mask column that is also a target column does not keep its value; such
tables are the subject of `datatable_apply_na_mask_mem`. -/
theorem apply_na_mask_idempotent (na : NAValues) (t m t1 : DataTable)
    (h : datatable_apply_na_mask na (some t) (some m)
      = { status := Status.ok, dt := some t1 }) :
    datatable_apply_na_mask na (some t1) (some m)
      = { status := Status.ok, dt := some t1 } := by
  obtain ⟨hs1, hs2, hv1, hv2, hchk, hcols, ht1⟩ := apply_ok_unfold na t m t1 h
  obtain ⟨_, _, hfront⟩ := apply_columns_ok na m t.nrows t.columns _ _ hcols
  have e1 : t1.ncols = t.ncols := by rw [ht1]
  have e2 : t1.nrows = t.nrows := by rw [ht1]
  have e3 : t1.rowindex = t.rowindex := by rw [ht1]
  have hfix : apply_columns na m t.nrows t1.columns (to_int t.ncols).toNat
      = (Status.ok, t1.columns) := by
    apply apply_columns_fixed_point
    intro c hc
    obtain ⟨col, mcol, col1, _, g2, g3, g4⟩ := hfront c hc
    exact ⟨col1, mcol, g4, g2, apply_na_mask_column_idem na col mcol.data t.nrows col1 g3⟩
  have ht2 : DataTable.mk t.nrows t.ncols none t1.columns = t1 := by
    rw [← hv1]; exact ht1.symm
  simp only [datatable_apply_na_mask, e1, e2, e3, hs1, hs2, hv1, hv2, ne_eq,
    not_true_eq_false, or_self, if_false, Option.isSome_none, Bool.false_eq_true]
  rw [← hs1, ← hs2, hchk]
  simp only [hfix, ht2]

/-- For a kind with a missing-value pattern the `switch` runs the fixed-width
scan with that pattern. -/
theorem apply_na_mask_column_fixed (na : NAValues) (col : Column) (mdata : List Nat)
    (nrows : Int) (v : Nat) (hv : sentinel na col.stype = some v) :
    apply_na_mask_column na col mdata nrows = fixed_case col mdata nrows v := by
  unfold apply_na_mask_column
  cases hst : col.stype <;> rw [hst] at hv <;> simp only [sentinel] at hv <;>
    first
      | (injection hv with hv; subst hv; norm_num)
      | cases hv

/-- The check of the mask columns, on a mask whose first `n` slots hold
columns: either all are `ST_BOOLEAN_I1` and the check passes, or it fails at
the lowest column that is not. -/
theorem mask_check_cases (m : DataTable) (n : Nat)
    (hcols : ∀ i : Nat, i < n → ∃ c, m.columns[i]? = some (some c)) :
    (mask_check m n = MaskCheck.pass ∧
      ∀ i : Nat, i < n → ∃ c, m.columns[i]? = some (some c) ∧ c.stype = SType.ST_BOOLEAN_I1) ∨
    (∃ k : Nat, k < n ∧ mask_check m n = MaskCheck.fail k ∧
      (∃ c, m.columns[k]? = some (some c) ∧ c.stype ≠ SType.ST_BOOLEAN_I1) ∧
      ∀ i : Nat, i < k → ∃ c, m.columns[i]? = some (some c) ∧ c.stype = SType.ST_BOOLEAN_I1) := by
  induction n with
  | zero => exact Or.inl ⟨rfl, fun i hi => absurd hi (by omega)⟩
  | succ n ih =>
    obtain ⟨c, hc⟩ := hcols n (by omega)
    rcases ih (fun i hi => hcols i (by omega)) with ⟨hp, hall⟩ | ⟨k, hk, hf, hbad, hlow⟩
    · by_cases hb : c.stype = SType.ST_BOOLEAN_I1
      · left
        refine ⟨by simp [mask_check, hp, hc, hb], ?_⟩
        intro i hi
        by_cases hin : i = n
        · subst hin; exact ⟨c, hc, hb⟩
        · exact hall i (by omega)
      · right
        exact ⟨n, by omega, by simp [mask_check, hp, hc, hb], ⟨c, hc, hb⟩, hall⟩
    · right
      exact ⟨k, by omega, by simp [mask_check, hf], hbad, hlow⟩

/-- The outcome of a call whose mask check fails at column `k`. -/
theorem apply_mask_check_fail (na : NAValues) (t m : DataTable) (k : Nat)
    (hs : t.ncols = m.ncols ∧ t.nrows = m.nrows)
    (hv : t.rowindex = none ∧ m.rowindex = none)
    (hf : mask_check m (to_int t.ncols).toNat = MaskCheck.fail k) :
    datatable_apply_na_mask na (some t) (some m)
      = { status := Status.raised (DtError.InvalidMaskType (k : Int)), dt := some t } := by
  simp only [datatable_apply_na_mask, hs.1, hs.2, hv.1, hv.2, ne_eq, not_true_eq_false,
    or_self, if_false, Option.isSome_none, Bool.false_eq_true]
  rw [← hs.1, hf]

/-- The status of a call whose mask check passes is not `InvalidMaskType`. -/
theorem apply_mask_check_pass (na : NAValues) (t m : DataTable) (k : Int)
    (hp : mask_check m (to_int t.ncols).toNat = MaskCheck.pass) :
    (datatable_apply_na_mask na (some t) (some m)).status
      ≠ Status.raised (DtError.InvalidMaskType k) := by
  simp only [datatable_apply_na_mask]
  split_ifs
  · simp
  · simp
  · rw [hp]
    simp only
    intro h
    have hst : ∀ (n : Nat) (r : Status × List (Option Column)),
        apply_columns na m t.nrows t.columns n = r →
          r.1 ≠ Status.raised (DtError.InvalidMaskType k) := by
      intro n
      induction n with
      | zero => intro r hr; rw [← hr]; simp [apply_columns]
      | succ n ih =>
        intro r hr
        simp only [apply_columns] at hr
        rcases hprev : apply_columns na m t.nrows t.columns n with ⟨st, mid⟩
        have hih := ih _ hprev
        rw [hprev] at hr
        cases st with
        | ok =>
          simp only at hr
          split at hr
          · split at hr <;> rw [← hr] <;> simp
          · rw [← hr]; simp
        | null => simp only at hr; rw [← hr]; simp
        | raised e => simp only at hr; rw [← hr]; exact hih
        | undefined => simp only at hr; rw [← hr]; simp
    exact hst _ _ rfl h


/-- C7. If the column counts differ, or the row counts differ, or the target or
the mask carries a row-index, or (the mask being an array of `ncols` columns)
some mask column is not boolean, then `datatable_apply_na_mask` raises an error,
returns no table and leaves the target as it was. -/
theorem apply_na_mask_rejects (na : NAValues) (t m : DataTable)
    (h : t.ncols ≠ m.ncols ∨ t.nrows ≠ m.nrows ∨ t.rowindex ≠ none ∨ m.rowindex ≠ none ∨
      ((m.ncols ≤ 2147483647 ∧
          ∀ i : Nat, (i : Int) < m.ncols → ∃ c, m.columns[i]? = some (some c)) ∧
        ∃ (i : Nat) (c : Column), (i : Int) < m.ncols ∧ m.columns[i]? = some (some c) ∧
          c.stype ≠ SType.ST_BOOLEAN_I1)) :
    (datatable_apply_na_mask na (some t) (some m)).returned = none ∧
    (∃ e, (datatable_apply_na_mask na (some t) (some m)).status = Status.raised e) ∧
    (datatable_apply_na_mask na (some t) (some m)).dt = some t := by
  by_cases hshape : t.ncols ≠ m.ncols ∨ t.nrows ≠ m.nrows
  · have e : datatable_apply_na_mask na (some t) (some m)
        = { status := Status.raised DtError.ShapeMismatch, dt := some t } := by
      simp only [datatable_apply_na_mask, if_pos hshape]
    rw [e]
    exact ⟨rfl, ⟨_, rfl⟩, rfl⟩
  · by_cases hview : t.rowindex.isSome = true ∨ m.rowindex.isSome = true
    · have e : datatable_apply_na_mask na (some t) (some m)
          = { status := Status.raised DtError.ViewNotAllowed, dt := some t } := by
        simp only [datatable_apply_na_mask, if_neg hshape, if_pos hview]
      rw [e]
      exact ⟨rfl, ⟨_, rfl⟩, rfl⟩
    · have hs1 : t.ncols = m.ncols := by
        by_contra hne; exact hshape (Or.inl hne)
      have hs2 : t.nrows = m.nrows := by
        by_contra hne; exact hshape (Or.inr hne)
      have hv1 : t.rowindex = none := by
        cases hr : t.rowindex with
        | none => rfl
        | some r => exact absurd (Or.inl (by simp [hr])) hview
      have hv2 : m.rowindex = none := by
        cases hr : m.rowindex with
        | none => rfl
        | some r => exact absurd (Or.inr (by simp [hr])) hview
      rcases h with h | h | h | h | ⟨⟨hmax, hcols⟩, i, c, hi, hc, hbad⟩
      · exact absurd hs1 h
      · exact absurd hs2 h
      · exact absurd hv1 h
      · exact absurd hv2 h
      · have hto : to_int t.ncols = m.ncols := by
          rw [hs1]; exact to_int_eq _ (by omega) hmax
        have hcols1 : ∀ j : Nat, j < (to_int t.ncols).toNat →
            ∃ c, m.columns[j]? = some (some c) := by
          intro j hj; rw [hto] at hj; exact hcols j (by omega)
        rcases mask_check_cases m _ hcols1 with ⟨_, hall⟩ | ⟨k, _, hf, _, _⟩
        · obtain ⟨c1, hc1, hb1⟩ := hall i (by rw [hto]; omega)
          rw [hc] at hc1
          simp only [Option.some.injEq] at hc1
          subst hc1
          exact absurd hb1 hbad
        · rw [apply_mask_check_fail na t m k ⟨hs1, hs2⟩ ⟨hv1, hv2⟩ hf]
          exact ⟨rfl, ⟨_, rfl⟩, rfl⟩

/-- C8, as the code has it.  For a target and a mask of equal shape without
row-index, the mask being an array of `ncols` columns with `ncols` in the `int`
range, the call fails with `InvalidMaskType k` exactly when `k` is the lowest
index of a mask column whose kind is not `ST_BOOLEAN_I1`; a mask column of kind
`ST_INTEGER_I1` is rejected like any other. -/
theorem apply_na_mask_invalid_mask_iff (na : NAValues) (t m : DataTable)
    (hs : t.ncols = m.ncols ∧ t.nrows = m.nrows)
    (hv : t.rowindex = none ∧ m.rowindex = none)
    (hmin : 0 ≤ m.ncols) (hmax : m.ncols ≤ 2147483647)
    (hcols : ∀ i : Nat, (i : Int) < m.ncols → ∃ c, m.columns[i]? = some (some c))
    (k : Int) :
    (datatable_apply_na_mask na (some t) (some m)).status
        = Status.raised (DtError.InvalidMaskType k) ↔
      ∃ i : Nat, k = (i : Int) ∧ (i : Int) < m.ncols ∧
        (∃ c, m.columns[i]? = some (some c) ∧ c.stype ≠ SType.ST_BOOLEAN_I1) ∧
        ∀ i1 : Nat, i1 < i →
          ∃ c, m.columns[i1]? = some (some c) ∧ c.stype = SType.ST_BOOLEAN_I1 := by
  have hto : to_int t.ncols = m.ncols := by
    rw [hs.1]; exact to_int_eq _ (by omega) hmax
  have hcols1 : ∀ j : Nat, j < (to_int t.ncols).toNat →
      ∃ c, m.columns[j]? = some (some c) := by
    intro j hj
    rw [hto] at hj
    exact hcols j (by omega)
  have hlt : ∀ j : Nat, (j : Int) < m.ncols → j < (to_int t.ncols).toNat := by
    intro j hj
    rw [hto]
    omega
  have hlt1 : ∀ j : Nat, j < (to_int t.ncols).toNat → (j : Int) < m.ncols := by
    intro j hj
    rw [hto] at hj
    omega
  rcases mask_check_cases m _ hcols1 with ⟨hp, hall⟩ | ⟨k0, hk0, hf, hbad, hlow⟩
  · constructor
    · intro h
      exact absurd h (apply_mask_check_pass na t m k hp)
    · rintro ⟨i, _, hi, ⟨c, hc, hb⟩, _⟩
      obtain ⟨c1, hc1, hb1⟩ := hall i (hlt i hi)
      rw [hc] at hc1
      simp only [Option.some.injEq] at hc1
      subst hc1
      exact absurd hb1 hb
  · rw [apply_mask_check_fail na t m k0 hs hv hf]
    simp only [Status.raised.injEq, DtError.InvalidMaskType.injEq]
    constructor
    · intro h
      exact ⟨k0, h.symm, hlt1 k0 hk0, hbad, hlow⟩
    · rintro ⟨i, hki, hi, ⟨c, hc, hb⟩, hlow1⟩
      rw [hki]
      congr 1
      rcases Nat.lt_trichotomy k0 i with h1 | h1 | h1
      · obtain ⟨c1, hc1, hb1⟩ := hlow1 k0 h1
        obtain ⟨c2, hc2, hb2⟩ := hbad
        rw [hc1] at hc2
        simp only [Option.some.injEq] at hc2
        subst hc2
        exact absurd hb1 hb2
      · exact h1
      · obtain ⟨c1, hc1, hb1⟩ := hlow i h1
        rw [hc] at hc1
        simp only [Option.some.injEq] at hc1
        subst hc1
        exact absurd hb1 hb

/-- C5, as the code has it.  After a call that returns the target, in a string
column a row `i` whose mask cell is true holds the negated magnitude of the
offset before it (`offdata[-1]` for row 0) as that offset is after the call: the
recovered length is `0` and the offset is never positive; it is negative
exactly when the magnitude before it is not `0`. -/
theorem apply_na_mask_masked_string_row (na : NAValues) (t m t1 : DataTable)
    (h : datatable_apply_na_mask na (some t) (some m)
      = { status := Status.ok, dt := some t1 })
    (hn : t.ncols ≤ 2147483647)
    (c : Nat) (hc : (c : Int) < t.ncols) (col mcol : Column)
    (hcol : t.columns[c]? = some (some col))
    (hst : col.stype = SType.ST_STRING_I4_VCHAR)
    (hmcol : m.columns[c]? = some (some mcol))
    (i : Nat) (hi : (i : Int) < t.nrows) (mi : Nat)
    (hmi : mcol.data[i]? = some mi) (hmi0 : mi ≠ 0) :
    ∃ col1 b prev, t1.columns[c]? = some (some col1) ∧
      col1.offdata[i]? = some b ∧
      (if i = 0 then some col1.offdata_m1 else col1.offdata[i - 1]?) = some prev ∧
      b = -|prev| ∧ |b| - |prev| = 0 ∧ b ≤ 0 ∧ (b < 0 ↔ prev ≠ 0) := by
  obtain ⟨_, _, _, _, _, hcols, _⟩ := apply_ok_unfold na t m t1 h
  obtain ⟨_, _, hfront⟩ := apply_columns_ok na m t.nrows t.columns _ _ hcols
  have hcn : c < (to_int t.ncols).toNat := by
    rw [to_int_eq _ (by omega) hn]; omega
  obtain ⟨col0, mcol0, col1, g1, g2, g3, g4⟩ := hfront c hcn
  rw [hcol] at g1
  rw [hmcol] at g2
  simp only [Option.some.injEq] at g1 g2
  subst g1
  subst g2
  have hsc : string_case col mcol.data t.nrows = ColStep.done col1 := by
    simp only [apply_na_mask_column, hst] at g3
    exact g3
  obtain ⟨s, hl, rfl⟩ := string_case_done _ _ _ _ hsc
  obtain ⟨_, _, hrows⟩ := string_loop_spec _ _ _ _ _ hl
  obtain ⟨b, prev, offp, m1, k1, k2, k3, k4, k5⟩ := hrows i (by omega)
  rw [hmi] at k4
  simp only [Option.some.injEq] at k4
  subst k4
  have hb := k5 hmi0
  obtain ⟨_, _, habs⟩ := abs32_some prev offp k3
  have hoffp : offp = |prev| := by
    rw [habs]
    split_ifs with hneg
    · exact (abs_of_neg hneg).symm
    · exact (abs_of_nonneg (by omega)).symm
  refine ⟨_, b, prev, g4, k1, k2, ?_, ?_, ?_, ?_⟩
  · rw [hb, hoffp]
  · rw [hb, hoffp, abs_neg, abs_abs]; omega
  · rw [hb, hoffp]; have := abs_nonneg prev; omega
  · rw [hb, hoffp]
    constructor
    · intro hlt hz
      rw [hz] at hlt
      simp at hlt
    · intro hz
      have := abs_pos.mpr hz
      omega


/-! ## The examples of the spec and the closed instances -/

/-- Example C of the spec: deleting `[2, 0, 2]` from the four-column table
leaves the columns that were at positions 1 and 3, and releases those at 0
and 2 once each. -/
theorem example_C :
    dt_delete_columns exC_table [2, 0, 2]
      = some (table_of [fixed_column SType.ST_INTEGER_I4 [1],
                        fixed_column SType.ST_INTEGER_I4 [3]] 1,
              [some (column_decref (fixed_column SType.ST_INTEGER_I4 [0])),
               some (column_decref (fixed_column SType.ST_INTEGER_I4 [2]))]) := by
  decide

/-- Instance of C1 at Example C. -/
theorem dt_delete_columns_spec_witness :
    (∀ x ∈ ([2, 0, 2] : List Int), (0 : Int) ≤ x ∧ x < ((4 : Nat) : Int)) ∧
    ∃ t released, dt_delete_columns exC_table [2, 0, 2] = some (t, released) ∧
      t.nrows = exC_table.nrows ∧ t.rowindex = exC_table.rowindex ∧
      t.ncols = ((4 : Nat) : Int) - (([2, 0, 2] : List Int).dedup.length : Int) ∧
      t.columns.take (4 - ([2, 0, 2] : List Int).dedup.length)
        = ((List.range 4).filter
            (fun (x : Nat) => decide ((x : Int) ∉ ([2, 0, 2] : List Int)))).map
            (fun x => exC_table.columns.getD x none) :=
  ⟨by decide, dt_delete_columns_spec exC_table 4 [2, 0, 2] rfl (by decide) (by decide)⟩

/-- Instance of C10: two columns before the terminator and no row-index. -/
theorem make_datatable_spec_witness :
    (none : Option Column) ∈ exA_target.columns ++ exA_mask.columns ∧
    (make_datatable none none = Ret.null ∧
     ∃ t, make_datatable (some (exA_target.columns ++ exA_mask.columns)) none = Ret.ptr t ∧
      t.columns = exA_target.columns ++ exA_mask.columns ∧ t.rowindex = none ∧
      t.ncols = (((exA_target.columns ++ exA_mask.columns).takeWhile Option.isSome).length : Int) ∧
      t.nrows = (match (none : Option RowIndex),
                   (exA_target.columns ++ exA_mask.columns).head? with
                 | some r, _ => r.length
                 | none, some (some c0) => c0.nrows
                 | none, _ => 0)) :=
  ⟨by decide, make_datatable_spec (exA_target.columns ++ exA_mask.columns) none (by decide)⟩

/-- Example A of the spec: the column `[5, NA, 7, 9]` under the mask
`[F, F, T, F]` becomes `[5, NA, NA, 9]`. -/
theorem example_A :
    datatable_apply_na_mask NA_spec (some exA_target) (some exA_mask)
      = { status := Status.ok, dt := some exA_result } := by
  decide

/-- Example B twice, the tables given by value: the second call returns what
the first returned. -/
theorem apply_na_mask_idempotent_witness :
    datatable_apply_na_mask NA_spec (some exB_target) (some exB_mask)
      = { status := Status.ok,
          dt := some (table_of [string_column 0 [97, 98, 99, 100] [2, -2, 4]] 3) } ∧
    datatable_apply_na_mask NA_spec
        (some (table_of [string_column 0 [97, 98, 99, 100] [2, -2, 4]] 3)) (some exB_mask)
      = { status := Status.ok,
          dt := some (table_of [string_column 0 [97, 98, 99, 100] [2, -2, 4]] 3) } :=
  ⟨by decide, apply_na_mask_idempotent NA_spec exB_target exB_mask _ (by decide)⟩


/-- C3 at a failing input.  The strings "a", "b", "cdef" under the mask
`[T, T, F]`: the call returns the target, and the unmasked row 2, which held
"cdef", recovers as "def".  The second masked row adds to `doffset` the span
measured from the already lowered end of the row before it, so that the
deficit is 3 instead of 2.  The same happens when positions are counted
from 1. -/
theorem unmasked_row_after_two_masked_rows :
    datatable_apply_na_mask NA_spec (some two_masked_target) (some two_masked_mask)
      = { status := Status.ok,
          dt := some (table_of
            [string_column 0 [100, 101, 102, 100, 101, 102] [0, 0, 3]] 3) } ∧
    recovered_string (string_column 0 [97, 98, 99, 100, 101, 102] [1, 2, 6]) 2
      = [99, 100, 101, 102] ∧
    recovered_string (string_column 0 [100, 101, 102, 100, 101, 102] [0, 0, 3]) 2
      = [100, 101, 102] ∧
    datatable_apply_na_mask NA_spec (some two_masked_target_one_based) (some two_masked_mask)
      = { status := Status.ok,
          dt := some (table_of
            [string_column (-1) [0, 100, 101, 102, 100, 101, 102] [-1, -1, 4]] 3) } ∧
    recovered_string (string_column (-1) [0, 97, 98, 99, 100, 101, 102] [2, 3, 7]) 2
      = [99, 100, 101, 102] ∧
    recovered_string (string_column (-1) [0, 100, 101, 102, 100, 101, 102] [-1, -1, 4]) 2
      = [100, 101, 102] := by
  decide

/-- C4 at a failing input.  The strings "ab", "cd", "ef" under the mask
`[T, T, F]`: the call returns the target with all three offsets `0`, so the
used part of the blob is empty, while the one surviving string is "ef".  The
same happens when positions are counted from 1. -/
theorem used_blob_after_two_masked_rows :
    datatable_apply_na_mask NA_spec (some three_pairs_target) (some two_masked_mask)
      = { status := Status.ok,
          dt := some (table_of
            [string_column 0 [97, 98, 99, 100, 101, 102] [0, 0, 0]] 3) } ∧
    used_blob (string_column 0 [97, 98, 99, 100, 101, 102] [0, 0, 0]) 3 = [] ∧
    surviving_strings (string_column 0 [97, 98, 99, 100, 101, 102] [2, 4, 6]) [1, 1, 0] 3
      = [101, 102] ∧
    datatable_apply_na_mask NA_spec (some three_pairs_target_one_based) (some two_masked_mask)
      = { status := Status.ok,
          dt := some (table_of
            [string_column (-1) [0, 97, 98, 99, 100, 101, 102] [-1, -1, 1]] 3) } ∧
    used_blob (string_column (-1) [0, 97, 98, 99, 100, 101, 102] [-1, -1, 1]) 3 = [] ∧
    surviving_strings (string_column (-1) [0, 97, 98, 99, 100, 101, 102] [3, 5, 7])
      [1, 1, 0] 3 = [101, 102] := by
  decide

/-- C5 as stated fails at row 0 when `offdata[-1]` is `0`: the one-row column
"ab" under the mask `[T]` gets the offset `0`, which is not negative. -/
theorem masked_row_zero_offset_not_negative :
    datatable_apply_na_mask NA_spec (some one_string_target) (some one_true_mask)
      = { status := Status.ok, dt := some (table_of [string_column 0 [97, 98] [0]] 1) } ∧
    (string_column 0 [97, 98] [0]).offdata[0]? = some 0 ∧ ¬ ((0 : Int) < 0) := by
  decide

/-- Instance of C5 (as the code has it) at Example B, row 1. -/
theorem apply_na_mask_masked_string_row_witness :
    datatable_apply_na_mask NA_spec (some exB_target) (some exB_mask)
      = { status := Status.ok,
          dt := some (table_of [string_column 0 [97, 98, 99, 100] [2, -2, 4]] 3) } ∧
    ∃ col1 b prev,
      (table_of [string_column 0 [97, 98, 99, 100] [2, -2, 4]] 3).columns[0]?
        = some (some col1) ∧
      col1.offdata[1]? = some b ∧
      (if 1 = 0 then some col1.offdata_m1 else col1.offdata[1 - 1]?) = some prev ∧
      b = -|prev| ∧ |b| - |prev| = 0 ∧ b ≤ 0 ∧ (b < 0 ↔ prev ≠ 0) :=
  ⟨by decide,
   apply_na_mask_masked_string_row NA_spec exB_target exB_mask _ (by decide) (by decide)
     0 (by decide) (string_column 0 [97, 98, 99, 100] [2, 2, 4])
     (fixed_column SType.ST_BOOLEAN_I1 [0, 1, 0]) (by decide) (by decide) (by decide)
     1 (by decide) 1 (by decide) (by decide)⟩

/-- Instance of C7: a mask whose only column is a 1-byte integer column. -/
theorem apply_na_mask_rejects_witness :
    (int8_target.ncols ≠ int8_mask.ncols ∨ int8_target.nrows ≠ int8_mask.nrows ∨
      int8_target.rowindex ≠ none ∨ int8_mask.rowindex ≠ none ∨
      ((int8_mask.ncols ≤ 2147483647 ∧
          ∀ i : Nat, (i : Int) < int8_mask.ncols →
            ∃ c, int8_mask.columns[i]? = some (some c)) ∧
        ∃ (i : Nat) (c : Column), (i : Int) < int8_mask.ncols ∧
          int8_mask.columns[i]? = some (some c) ∧ c.stype ≠ SType.ST_BOOLEAN_I1)) ∧
    ((datatable_apply_na_mask NA_spec (some int8_target) (some int8_mask)).returned = none ∧
     (∃ e, (datatable_apply_na_mask NA_spec (some int8_target) (some int8_mask)).status
        = Status.raised e) ∧
     (datatable_apply_na_mask NA_spec (some int8_target) (some int8_mask)).dt
        = some int8_target) :=
  have hyp : int8_target.ncols ≠ int8_mask.ncols ∨ int8_target.nrows ≠ int8_mask.nrows ∨
      int8_target.rowindex ≠ none ∨ int8_mask.rowindex ≠ none ∨
      ((int8_mask.ncols ≤ 2147483647 ∧
          ∀ i : Nat, (i : Int) < int8_mask.ncols →
            ∃ c, int8_mask.columns[i]? = some (some c)) ∧
        ∃ (i : Nat) (c : Column), (i : Int) < int8_mask.ncols ∧
          int8_mask.columns[i]? = some (some c) ∧ c.stype ≠ SType.ST_BOOLEAN_I1) :=
    Or.inr (Or.inr (Or.inr (Or.inr
      ⟨⟨by decide, fun i hi => by
          have h0 : i = 0 := by
            have : int8_mask.ncols = 1 := rfl
            omega
          subst h0
          exact ⟨_, rfl⟩⟩,
       0, fixed_column SType.ST_INTEGER_I1 [1], by decide, rfl, by decide⟩)))
  ⟨hyp, apply_na_mask_rejects NA_spec int8_target int8_mask hyp⟩

/-- C8 as stated fails: a mask whose only column is a 1-byte integer column is
rejected with `InvalidMaskType 0`. -/
theorem int8_mask_is_rejected :
    int8_mask.columns = [some (fixed_column SType.ST_INTEGER_I1 [1]), none] ∧
    int8_target.ncols = int8_mask.ncols ∧ int8_target.nrows = int8_mask.nrows ∧
    int8_target.rowindex = none ∧ int8_mask.rowindex = none ∧
    datatable_apply_na_mask NA_spec (some int8_target) (some int8_mask)
      = { status := Status.raised (DtError.InvalidMaskType 0), dt := some int8_target } := by
  decide

/-- Instance of C8 (as the code has it) at the 1-byte integer mask. -/
theorem apply_na_mask_invalid_mask_iff_witness :
    ((int8_target.ncols = int8_mask.ncols ∧ int8_target.nrows = int8_mask.nrows) ∧
     (int8_target.rowindex = none ∧ int8_mask.rowindex = none) ∧
     0 ≤ int8_mask.ncols ∧ int8_mask.ncols ≤ 2147483647 ∧
     ∀ i : Nat, (i : Int) < int8_mask.ncols → ∃ c, int8_mask.columns[i]? = some (some c)) ∧
    ((datatable_apply_na_mask NA_spec (some int8_target) (some int8_mask)).status
        = Status.raised (DtError.InvalidMaskType 0) ↔
      ∃ i : Nat, (0 : Int) = (i : Int) ∧ (i : Int) < int8_mask.ncols ∧
        (∃ c, int8_mask.columns[i]? = some (some c) ∧ c.stype ≠ SType.ST_BOOLEAN_I1) ∧
        ∀ i1 : Nat, i1 < i →
          ∃ c, int8_mask.columns[i1]? = some (some c) ∧ c.stype = SType.ST_BOOLEAN_I1) :=
  have hcols : ∀ i : Nat, (i : Int) < int8_mask.ncols →
      ∃ c, int8_mask.columns[i]? = some (some c) := fun i hi => by
    have h0 : i = 0 := by
      have : int8_mask.ncols = 1 := rfl
      omega
    subst h0
    exact ⟨_, rfl⟩
  ⟨⟨⟨rfl, rfl⟩, ⟨rfl, rfl⟩, by decide, by decide, hcols⟩,
   apply_na_mask_invalid_mask_iff NA_spec int8_target int8_mask ⟨rfl, rfl⟩ ⟨rfl, rfl⟩
     (by decide) (by decide) hcols 0⟩

/-- C9 as stated fails: in Example B the blob is not compacted to "acd". -/
theorem example_B_blob_is_not_acd :
    datatable_apply_na_mask NA_spec (some exB_target) (some exB_mask)
      = { status := Status.ok,
          dt := some (table_of [string_column 0 [97, 98, 99, 100] [2, -2, 4]] 3) } ∧
    (string_column 0 [97, 98, 99, 100] [2, -2, 4]).strdata ≠ [97, 99, 100] ∧
    used_blob (string_column 0 [97, 98, 99, 100] [2, -2, 4]) 3 ≠ [97, 99, 100] := by
  decide

/-- C9, as the code has it.  In Example B the call returns the target with the
blob "abcd" unchanged and the offsets `[2, -2, 4]`: row 1 is missing (negative
offset, length 0) and rows 0 and 2 recover as "ab" and "cd". -/
theorem example_B :
    datatable_apply_na_mask NA_spec (some exB_target) (some exB_mask)
      = { status := Status.ok,
          dt := some (table_of [string_column 0 [97, 98, 99, 100] [2, -2, 4]] 3) } ∧
    used_blob (string_column 0 [97, 98, 99, 100] [2, -2, 4]) 3 = [97, 98, 99, 100] ∧
    (string_column 0 [97, 98, 99, 100] [2, -2, 4]).offdata[1]? = some (-2) ∧
    recovered_string (string_column 0 [97, 98, 99, 100] [2, -2, 4]) 1 = [] ∧
    recovered_string (string_column 0 [97, 98, 99, 100] [2, -2, 4]) 0 = [97, 98] ∧
    recovered_string (string_column 0 [97, 98, 99, 100] [2, -2, 4]) 2 = [99, 100] := by
  decide

/-! ## Partial mutation, frame and invariants -/

/-- C11. The unsupported-kind error is not atomic: the target and the mask
below have the same shape, no row-index and boolean mask columns; column 1 of
the target has a kind without a handler and column 0, a 1-byte integer column,
has a true mask cell.  The call fails with `UnsupportedColumnType`, returns no
table, and the cell of column 0 holds the sentinel `NA_I1` all the same. -/
theorem unsupported_kind_not_atomic :
    unsupported_target.ncols = two_true_mask.ncols ∧
    unsupported_target.nrows = two_true_mask.nrows ∧
    unsupported_target.rowindex = none ∧ two_true_mask.rowindex = none ∧
    mask_check two_true_mask 2 = MaskCheck.pass ∧
    unsupported_target.columns[0]? = some (some (fixed_column SType.ST_INTEGER_I1 [5])) ∧
    sentinel NA_spec SType.ST_INTEGER_I1 = some 128 ∧
    datatable_apply_na_mask NA_spec (some unsupported_target) (some two_true_mask)
      = { status := Status.raised (DtError.UnsupportedColumnType (SType.ST_OTHER 99)),
          dt := some (table_of [fixed_column SType.ST_INTEGER_I1 [128],
                                fixed_column (SType.ST_OTHER 99) [7]] 1) } ∧
    (datatable_apply_na_mask NA_spec (some unsupported_target)
        (some two_true_mask)).returned = none := by
  decide

/-- With a negative first index the main loop of `dt_delete_columns` copies
every slot onto itself. -/
theorem delete_loop_negative (orig : List (Option Column)) (s : List Int) (first : Int)
    (hneg : first < 0) :
    ∀ i, i ≤ orig.length →
      for_loop (delete_body s)
          { columns := orig, j := 0, next_col_to_remove := first, k := 0, released := [] } i
        = some { columns := orig, j := i, next_col_to_remove := first, k := 0,
                 released := [] } := by
  intro i
  induction i with
  | zero => intro _; rfl
  | succ i ih =>
    intro hi
    have hc : orig[i]? = some orig[i] := List.getElem?_eq_getElem (by omega)
    have hne : ¬ ((i : Int) = first) := by omega
    simp only [for_loop, ih (by omega), Option.some_bind, delete_body, hc, hne, if_false,
      set_eq_self _ _ _ hc]

/-- C19. When the index list holds a negative index, `dt_delete_columns`
removes nothing, whatever else the list holds: no column is released, the
column count, the row count and the row-index stay, and the array keeps the
slots `0 .. ncols` as they were. -/
theorem dt_delete_columns_negative_index (dt : DataTable) (n : Nat) (l : List Int)
    (hn : dt.ncols = (n : Int)) (hlen : n + 1 ≤ dt.columns.length)
    (hneg : ∃ x ∈ l, x < 0) :
    ∃ t, dt_delete_columns dt l = some (t, []) ∧
      t.ncols = dt.ncols ∧ t.nrows = dt.nrows ∧ t.rowindex = dt.rowindex ∧
      t.columns = dt.columns.take (n + 1) ∧
      ∀ i, i ≤ n → t.columns[i]? = dt.columns[i]? := by
  obtain ⟨x, hx, hx0⟩ := hneg
  have hl : l.length ≠ 0 := by
    intro h0
    rw [List.length_eq_zero] at h0
    rw [h0] at hx
    simp at hx
  have hs0 : 0 < (qsort compare_ints l).length := by rw [qsort_length]; omega
  have hfirst : (qsort compare_ints l)[0]? = some ((qsort compare_ints l)[0]) :=
    List.getElem?_eq_getElem hs0
  obtain ⟨m, hm⟩ := (qsort_mem l x).mp hx
  have hle := qsort_sorted l 0 m _ x (by omega) hfirst hm
  have hloop := delete_loop_negative dt.columns (qsort compare_ints l)
    ((qsort compare_ints l)[0]) (by omega) (n + 1) hlen
  have hN : (dt.ncols + 1).toNat = n + 1 := by rw [hn]; omega
  refine ⟨{ dt with ncols := ((n + 1 : Nat) : Int) - 1, columns := dt.columns.take (n + 1) },
    ?_, ?_, rfl, rfl, rfl, ?_⟩
  · simp only [dt_delete_columns, hl, if_false, hfirst, hN, hloop]
  · simp only [hn]; push_cast; omega
  · intro i hi
    simp only [List.getElem?_take]
    rw [if_pos (by omega)]

/-- The whole effect of `dt_delete_columns` for a non-empty list of indices in
`0 .. n-1`, with the terminator slot set apart. -/
theorem dt_delete_columns_in_range (dt : DataTable) (n : Nat) (l : List Int)
    (hn : dt.ncols = (n : Int)) (hlen : n + 1 ≤ dt.columns.length)
    (hne : l ≠ []) (hrange : ∀ x ∈ l, (0 : Int) ≤ x ∧ x < n) :
    dt_delete_columns dt l
      = some ({ dt with ncols := ((kept_slots dt.columns l n).length : Int),
                        columns := kept_slots dt.columns l n ++ [dt.columns.getD n none] },
              released_slots dt.columns l n) := by
  have hnot : ((n : Nat) : Int) ∉ l := by
    intro h; have := hrange _ h; omega
  rw [dt_delete_columns_eq dt n l hn hlen hne (fun x hx => (hrange x hx).1),
    kept_slots_succ_not_mem _ _ _ hnot, released_slots_succ_not_mem _ _ _ hnot]
  simp

theorem count_columns_append_none (xs : List (Option Column))
    (h : ∀ y ∈ xs, ∃ c, y = some c) : count_columns (xs ++ [none]) = some xs.length := by
  induction xs with
  | nil => rfl
  | cons y ys ih =>
    obtain ⟨c, rfl⟩ := h y (by simp)
    simp [count_columns, ih (fun z hz => h z (by simp [hz]))]

theorem kept_slots_all_some (orig : List (Option Column)) (l : List Int) (n : Nat)
    (hcols : ∀ i : Nat, i < n → ∃ c, orig[i]? = some (some c)) :
    ∀ y ∈ kept_slots orig l n, ∃ c, y = some c := by
  intro y hy
  simp only [kept_slots, List.mem_map, List.mem_filter, List.mem_range] at hy
  obtain ⟨x, ⟨hx, _⟩, rfl⟩ := hy
  obtain ⟨c, hc⟩ := hcols x hx
  exact ⟨c, by rw [List.getD_eq_getElem?_getD, hc]; rfl⟩

/-- C17. `dt_delete_columns` keeps the array terminated: when slot `ncols` of
the table holds `NULL` and the slots below it hold columns, then after a call
with a non-empty list of in-range indices the slot at the new `ncols` holds
`NULL`, the slots below it hold columns, and counting the columns the way
`make_datatable` does gives the new `ncols`. -/
theorem dt_delete_columns_terminated (dt : DataTable) (n : Nat) (l : List Int)
    (hn : dt.ncols = (n : Int))
    (hterm : dt.columns[n]? = some none)
    (hcols : ∀ i : Nat, i < n → ∃ c, dt.columns[i]? = some (some c))
    (hne : l ≠ []) (hrange : ∀ x ∈ l, (0 : Int) ≤ x ∧ x < n) :
    ∃ t released, dt_delete_columns dt l = some (t, released) ∧
      0 ≤ t.ncols ∧
      t.columns[t.ncols.toNat]? = some none ∧
      (∀ i : Nat, (i : Int) < t.ncols → ∃ c, t.columns[i]? = some (some c)) ∧
      count_columns t.columns = some t.ncols.toNat := by
  have hlen : n + 1 ≤ dt.columns.length := by
    have := (List.getElem?_eq_some.mp hterm).1
    omega
  have hD : dt.columns.getD n none = none := by
    rw [List.getD_eq_getElem?_getD, hterm]; rfl
  have hall := kept_slots_all_some dt.columns l n hcols
  refine ⟨_, _, dt_delete_columns_in_range dt n l hn hlen hne hrange, ?_, ?_, ?_, ?_⟩
  · simp
  · simp only [hD, Int.toNat_ofNat]
    rw [List.getElem?_append_right le_rfl]
    simp
  · intro i hi
    simp only [Nat.cast_lt] at hi
    simp only [hD]
    rw [List.getElem?_append_left hi]
    have hmem : (kept_slots dt.columns l n)[i] ∈ kept_slots dt.columns l n :=
      List.getElem_mem hi
    obtain ⟨c, hc⟩ := hall _ hmem
    exact ⟨c, by rw [List.getElem?_eq_getElem hi, hc]⟩
  · simp only [hD, Int.toNat_ofNat]
    exact count_columns_append_none _ hall

/-! ## The fixed-width scan in any row order -/

theorem fixed_body_length (mdata : List Nat) (na j : Nat) (cdata out : List Nat)
    (h : fixed_body mdata na j cdata = some out) : out.length = cdata.length := by
  obtain ⟨m, _, hcase⟩ := fixed_body_some _ _ _ _ _ h
  rcases hcase with ⟨_, _, rfl⟩ | ⟨_, rfl⟩
  · simp
  · rfl

/-- Two row updates commute. -/
theorem fixed_body_comm (mdata : List Nat) (na x y : Nat) (cdata : List Nat)
    (f : List Nat → Option (List Nat)) :
    (fixed_body mdata na y cdata).bind (fun c => (fixed_body mdata na x c).bind f)
      = (fixed_body mdata na x cdata).bind (fun c => (fixed_body mdata na y c).bind f) := by
  unfold fixed_body
  cases hx : mdata[x]? with
  | none =>
    cases hy : mdata[y]? with
    | none => simp
    | some my => by_cases h1 : my = 0 <;> by_cases h2 : y < cdata.length <;> simp [h1, h2]
  | some mx =>
    cases hy : mdata[y]? with
    | none => by_cases h1 : mx = 0 <;> by_cases h2 : x < cdata.length <;> simp [h1, h2]
    | some my =>
      by_cases h1 : mx = 0 <;> by_cases h2 : my = 0 <;>
        by_cases h3 : x < cdata.length <;> by_cases h4 : y < cdata.length <;>
        simp [h1, h2, h3, h4]
      by_cases hxy : x = y
      · subst hxy; rfl
      · congr 1
        apply List.ext_getElem?
        intro i
        simp only [List.getElem?_set, List.length_set]
        split_ifs <;> rfl

theorem scan_in_order_perm (mdata : List Nat) (na : Nat) (l1 l2 : List Nat)
    (h : l1.Perm l2) :
    ∀ cdata, scan_in_order mdata na l1 cdata = scan_in_order mdata na l2 cdata := by
  induction h with
  | nil => intro _; rfl
  | cons x _ ih =>
    intro cdata
    simp only [scan_in_order]
    congr 1
    funext c
    exact ih c
  | swap x y l =>
    intro cdata
    simp only [scan_in_order]
    exact fixed_body_comm mdata na x y cdata _
  | trans _ _ ih1 ih2 => intro cdata; rw [ih1, ih2]

theorem scan_in_order_append (mdata : List Nat) (na : Nat) (l1 l2 : List Nat) :
    ∀ cdata, scan_in_order mdata na (l1 ++ l2) cdata
      = (scan_in_order mdata na l1 cdata).bind (scan_in_order mdata na l2) := by
  induction l1 with
  | nil => intro _; rfl
  | cons x l ih =>
    intro cdata
    simp only [List.cons_append, scan_in_order]
    cases fixed_body mdata na x cdata with
    | none => rfl
    | some c => exact ih c

theorem scan_in_order_range (mdata : List Nat) (na : Nat) (cdata : List Nat) (n : Nat) :
    scan_in_order mdata na (List.range n) cdata = for_loop (fixed_body mdata na) cdata n := by
  induction n with
  | zero => rfl
  | succ n ih =>
    rw [List.range_succ, scan_in_order_append, ih]
    simp only [for_loop]
    congr 1
    funext c
    simp only [scan_in_order]
    cases fixed_body mdata na n c <;> rfl

theorem scan_in_chunks_flatten (mdata : List Nat) (na : Nat) (chunks : List (List Nat)) :
    ∀ cdata, scan_in_chunks mdata na chunks cdata
      = scan_in_order mdata na chunks.flatten cdata := by
  induction chunks with
  | nil => intro _; rfl
  | cons c rest ih =>
    intro cdata
    simp only [scan_in_chunks, List.flatten_cons, scan_in_order_append]
    congr 1
    funext d
    exact ih d

/-- C20. The fixed-width scan does not depend on the row order: for a column of
a fixed-width kind, the `switch` (which scans the rows `0, 1, ..., nrows - 1`)
gives the same column as the per-row update applied over any permutation of
the rows, and as the rows cut into chunks that are processed in any order. -/
theorem fixed_scan_order_independent (na : NAValues) (col : Column) (mdata : List Nat)
    (nrows : Int) (v : Nat) (hv : sentinel na col.stype = some v)
    (order : List Nat) (horder : order.Perm (List.range nrows.toNat))
    (chunks : List (List Nat)) (hchunks : chunks.flatten.Perm (List.range nrows.toNat)) :
    fixed_case_in_order col mdata order v = apply_na_mask_column na col mdata nrows ∧
    fixed_case_in_chunks col mdata chunks v = apply_na_mask_column na col mdata nrows := by
  rw [apply_na_mask_column_fixed na col mdata nrows v hv]
  unfold fixed_case_in_order fixed_case_in_chunks fixed_case
  rw [scan_in_chunks_flatten, scan_in_order_perm _ _ _ _ horder,
    scan_in_order_perm _ _ _ _ hchunks, scan_in_order_range]
  exact ⟨rfl, rfl⟩

/-! ## What `datatable_apply_na_mask` leaves alone -/

theorem same_slot_refl (c : Option Column) : same_slot c c := by
  cases c <;> simp [same_slot]

theorem string_body_length (mdata : List Nat) (m1 : Int) (j : Nat) (s s1 : StrState)
    (h : string_body mdata m1 j s = some s1) :
    s1.offdata.length = s.offdata.length ∧ s1.strdata.length = s.strdata.length := by
  unfold string_body at h
  split at h
  · split at h
    · simp at h
    · split_ifs at h
      · split at h
        · simp at h
        · split at h
          · simp at h
          · injection h with h; subst h; simp
      · split at h
        · rename_i o str _ hmv
          injection h with h
          subst h
          refine ⟨by simp, ?_⟩
          unfold memmove at hmv
          split_ifs at hmv with hb
          injection hmv with hmv
          subst hmv
          simp only [List.length_append, List.length_take, List.length_drop]
          omega
        · simp at h
      · injection h with h; subst h; simp
      · injection h with h; subst h; exact ⟨rfl, rfl⟩
  · simp at h

theorem string_loop_length (mdata : List Nat) (m1 : Int) (s0 : StrState) :
    ∀ (n : Nat) (s : StrState), for_loop (string_body mdata m1) s0 n = some s →
      s.offdata.length = s0.offdata.length ∧ s.strdata.length = s0.strdata.length := by
  intro n
  induction n with
  | zero =>
    intro s h
    simp only [for_loop, Option.some.injEq] at h
    subst h
    exact ⟨rfl, rfl⟩
  | succ n ih =>
    intro s h
    obtain ⟨mid, hprev, h⟩ := for_loop_succ_some _ _ _ _ h
    obtain ⟨h1, h2⟩ := ih mid hprev
    obtain ⟨h3, h4⟩ := string_body_length _ _ _ _ _ h
    exact ⟨by omega, by omega⟩

/-- The `switch` changes nothing of a column but the contents of its buffer. -/
theorem apply_na_mask_column_frame (na : NAValues) (col : Column) (mdata : List Nat)
    (nrows : Int) (col1 : Column)
    (h : apply_na_mask_column na col mdata nrows = ColStep.done col1) :
    same_slot (some col) (some col1) := by
  unfold apply_na_mask_column at h
  have hfixed : ∀ w, fixed_case col mdata nrows w = ColStep.done col1 →
      same_slot (some col) (some col1) := by
    intro w hw
    obtain ⟨out, hl, rfl⟩ := fixed_case_done _ _ _ _ _ hw
    obtain ⟨hlen, _, _⟩ := fixed_loop_spec _ _ _ _ _ hl
    simp [same_slot, hlen]
  split at h
  all_goals first
    | exact hfixed _ h
    | (obtain ⟨s, hl, rfl⟩ := string_case_done _ _ _ _ h
       obtain ⟨h1, h2⟩ := string_loop_length _ _ _ _ _ hl
       simp [same_slot, h1, h2])
    | exact absurd h (by simp)

/-- The loop over the target columns, however it ends: each slot of the array
is as before or holds the column the `switch` made of the one it held. -/
theorem apply_columns_any (na : NAValues) (mask : DataTable) (nrows : Int)
    (cols : List (Option Column)) :
    ∀ (n : Nat) (st : Status) (cols1 : List (Option Column)),
      apply_columns na mask nrows cols n = (st, cols1) →
      cols1.length = cols.length ∧
      (∀ c, n ≤ c → cols1[c]? = cols[c]?) ∧
      (∀ c : Nat, cols1[c]? = cols[c]? ∨
        ∃ col mcol col1 : Column, cols[c]? = some (some col) ∧
          mask.columns[c]? = some (some mcol) ∧
          apply_na_mask_column na col mcol.data nrows = ColStep.done col1 ∧
          cols1[c]? = some (some col1)) := by
  intro n
  induction n with
  | zero =>
    intro st cols1 h
    simp only [apply_columns, Prod.mk.injEq] at h
    obtain ⟨_, rfl⟩ := h
    exact ⟨rfl, fun _ _ => rfl, fun _ => Or.inl rfl⟩
  | succ n ih =>
    intro st cols1 h
    simp only [apply_columns] at h
    rcases hprev : apply_columns na mask nrows cols n with ⟨st0, mid⟩
    obtain ⟨hlen, hback, hall⟩ := ih st0 mid hprev
    have hkeep : mid = cols1 →
        cols1.length = cols.length ∧
        (∀ c, n + 1 ≤ c → cols1[c]? = cols[c]?) ∧
        (∀ c : Nat, cols1[c]? = cols[c]? ∨
          ∃ col mcol col1 : Column, cols[c]? = some (some col) ∧
            mask.columns[c]? = some (some mcol) ∧
            apply_na_mask_column na col mcol.data nrows = ColStep.done col1 ∧
            cols1[c]? = some (some col1)) := by
      intro he
      subst he
      exact ⟨hlen, fun c hc => hback c (by omega), hall⟩
    rw [hprev] at h
    cases st0 with
    | ok =>
      simp only at h
      split at h
      · rename_i col mcol hc hm
        split at h
        · rename_i col1 hdone
          simp only [Prod.mk.injEq] at h
          obtain ⟨_, rfl⟩ := h
          have hn : n < mid.length := (List.getElem?_eq_some.mp hc).1
          refine ⟨by simpa using hlen, ?_, ?_⟩
          · intro c hc1
            rw [List.getElem?_set_ne (by omega)]
            exact hback c (by omega)
          · intro c
            by_cases hcn : c = n
            · subst hcn
              right
              refine ⟨col, mcol, col1, ?_, hm, hdone, List.getElem?_set_self hn⟩
              rw [← hback c le_rfl]; exact hc
            · rw [List.getElem?_set_ne (fun h => hcn h.symm)]
              exact hall c
        · exact hkeep (Prod.mk.inj h).2
        · exact hkeep (Prod.mk.inj h).2
      · exact hkeep (Prod.mk.inj h).2
    | null => exact hkeep (Prod.mk.inj h).2
    | raised e => exact hkeep (Prod.mk.inj h).2
    | undefined => exact hkeep (Prod.mk.inj h).2

/-- A call on two tables, however it ends: the target keeps its fields but the
column array, and each slot of the array is as before or holds the column the
`switch` made of the one it held. -/
theorem apply_outcome_any (na : NAValues) (t m : DataTable) :
    ∃ (st : Status) (cols1 : List (Option Column)),
      datatable_apply_na_mask na (some t) (some m)
        = { status := st, dt := some { t with columns := cols1 } } ∧
      cols1.length = t.columns.length ∧
      ∀ c : Nat, cols1[c]? = t.columns[c]? ∨
        ∃ col mcol col1 : Column, t.columns[c]? = some (some col) ∧
          m.columns[c]? = some (some mcol) ∧
          apply_na_mask_column na col mcol.data t.nrows = ColStep.done col1 ∧
          cols1[c]? = some (some col1) := by
  simp only [datatable_apply_na_mask]
  split_ifs
  · exact ⟨_, t.columns, rfl, rfl, fun _ => Or.inl rfl⟩
  · exact ⟨_, t.columns, rfl, rfl, fun _ => Or.inl rfl⟩
  · cases hchk : mask_check m (to_int t.ncols).toNat with
    | fail i => exact ⟨_, t.columns, rfl, rfl, fun _ => Or.inl rfl⟩
    | undefined => exact ⟨_, t.columns, rfl, rfl, fun _ => Or.inl rfl⟩
    | pass =>
      rcases hr : apply_columns na m t.nrows t.columns (to_int t.ncols).toNat with ⟨st, cols1⟩
      obtain ⟨h1, _, h3⟩ := apply_columns_any na m t.nrows t.columns _ st cols1 hr
      exact ⟨st, cols1, rfl, h1, h3⟩

/-- Tables by value: a call of `datatable_apply_na_mask` on a target and a
mask, whether it returns the target or fails, leaves the target its column
count, row count and row-index, an array of the same length, and in each slot
either what was there or a column of the same kind, row count and reference
count with buffers of the same sizes; when the call succeeds the table it
returns is that target.  What becomes of the mask is stated for
`datatable_apply_na_mask_mem`. -/
theorem apply_na_mask_frame (na : NAValues) (t m : DataTable) :
    ∃ t1, (datatable_apply_na_mask na (some t) (some m)).dt = some t1 ∧
      t1.ncols = t.ncols ∧ t1.nrows = t.nrows ∧ t1.rowindex = t.rowindex ∧
      t1.columns.length = t.columns.length ∧
      (∀ c : Nat, c < t.columns.length →
        same_slot (t.columns.getD c none) (t1.columns.getD c none)) ∧
      ((datatable_apply_na_mask na (some t) (some m)).status = Status.ok →
        (datatable_apply_na_mask na (some t) (some m)).returned = some t1) := by
  obtain ⟨st, cols1, hout, hlen, hall⟩ := apply_outcome_any na t m
  rw [hout]
  refine ⟨_, rfl, rfl, rfl, rfl, hlen, ?_, ?_⟩
  · intro c _
    simp only [List.getD_eq_getElem?_getD]
    rcases hall c with h | ⟨col, mcol, col1, h1, _, h3, h4⟩
    · rw [h]; exact same_slot_refl _
    · rw [h1, h4]
      exact apply_na_mask_column_frame na col mcol.data t.nrows col1 h3
  · intro hst
    simp only at hst
    subst hst
    rfl

theorem make_datatable_invariant (cols : List (Option Column)) (ri : Option RowIndex)
    (hterm : none ∈ cols)
    (heq : ∀ c c1 : Column, some c ∈ cols → some c1 ∈ cols → c.nrows = c1.nrows) :
    ∃ t, make_datatable (some cols) ri = Ret.ptr t ∧ row_count_invariant t := by
  have hc := count_columns_eq cols hterm
  cases ri with
  | some r =>
    refine ⟨_, by simp only [make_datatable, hc]; rfl, ?_⟩
    simp [row_count_invariant]
  | none =>
    cases cols with
    | nil => simp at hterm
    | cons c0 rest =>
      cases c0 with
      | none =>
        refine ⟨_, by simp only [make_datatable, count_columns]; rfl, ?_⟩
        simp only [row_count_invariant]
        intro i hi
        simp at hi
        omega
      | some c0 =>
        refine ⟨{ nrows := c0.nrows,
                  ncols := (((some c0 :: rest).takeWhile Option.isSome).length : Int),
                  rowindex := none, columns := some c0 :: rest }, ?_, ?_⟩
        · simp [make_datatable, hc]
        · simp only [row_count_invariant]
          intro i _ c hci
          exact heq c c0 (List.getElem?_mem hci) (by simp)

theorem dt_delete_columns_invariant (dt : DataTable) (n : Nat) (l : List Int)
    (hinv : row_count_invariant dt)
    (hn : dt.ncols = (n : Int)) (hlen : n + 1 ≤ dt.columns.length)
    (hrange : ∀ x ∈ l, (0 : Int) ≤ x ∧ x < n) :
    ∃ t released, dt_delete_columns dt l = some (t, released) ∧ row_count_invariant t := by
  by_cases hne : l = []
  · subst hne
    exact ⟨dt, [], by simp [dt_delete_columns], hinv⟩
  · refine ⟨_, _, dt_delete_columns_in_range dt n l hn hlen hne hrange, ?_⟩
    unfold row_count_invariant at hinv ⊢
    cases hri : dt.rowindex with
    | some r => rw [hri] at hinv; simpa [hri] using hinv
    | none =>
      rw [hri] at hinv
      simp only [hri]
      intro i hi c hc
      simp only [Nat.cast_lt] at hi
      rw [List.getElem?_append_left hi, List.getElem?_eq_getElem hi] at hc
      have hmem : (kept_slots dt.columns l n)[i] ∈ kept_slots dt.columns l n :=
        List.getElem_mem hi
      simp only [Option.some.injEq] at hc
      rw [hc] at hmem
      simp only [kept_slots, List.mem_map, List.mem_filter, List.mem_range] at hmem
      obtain ⟨x, ⟨hx, _⟩, hxc⟩ := hmem
      have hx1 : x < dt.columns.length := by omega
      rw [List.getD_eq_getElem?_getD, List.getElem?_eq_getElem hx1] at hxc
      simp only [Option.getD_some] at hxc
      exact hinv x (by omega) c (by rw [List.getElem?_eq_getElem hx1, hxc])

theorem apply_na_mask_invariant (na : NAValues) (t m : DataTable)
    (hinv : row_count_invariant t) :
    ∃ t1, (datatable_apply_na_mask na (some t) (some m)).dt = some t1 ∧
      row_count_invariant t1 := by
  obtain ⟨st, cols1, hout, _, hall⟩ := apply_outcome_any na t m
  rw [hout]
  refine ⟨_, rfl, ?_⟩
  unfold row_count_invariant at hinv ⊢
  cases hri : t.rowindex with
  | some r => rw [hri] at hinv; simpa [hri] using hinv
  | none =>
    rw [hri] at hinv
    simp only [hri]
    intro i hi c hc
    rcases hall i with h | ⟨col, mcol, col1, h1, _, h3, h4⟩
    · rw [h] at hc; exact hinv i hi c hc
    · rw [h4] at hc
      simp only [Option.some.injEq] at hc
      subst hc
      have hf := apply_na_mask_column_frame na col mcol.data t.nrows col1 h3
      simp only [same_slot] at hf
      rw [hf.2.1]
      exact hinv i hi col h1

/-- C12. The row-count invariant (the row count is the row-index length when a
row-index is attached, else the row count of every column of the table) holds
for the table `make_datatable` returns from a terminated array of columns of
equal row count, and a table that has it keeps it through `dt_delete_columns`
with in-range indices and through `datatable_apply_na_mask`, however that call
ends. -/
theorem row_count_invariant_preserved
    (cols : List (Option Column)) (ri : Option RowIndex) (hterm : none ∈ cols)
    (heq : ∀ c c1 : Column, some c ∈ cols → some c1 ∈ cols → c.nrows = c1.nrows)
    (dt : DataTable) (n : Nat) (l : List Int) (hinv : row_count_invariant dt)
    (hn : dt.ncols = (n : Int)) (hlen : n + 1 ≤ dt.columns.length)
    (hrange : ∀ x ∈ l, (0 : Int) ≤ x ∧ x < n)
    (na : NAValues) (mask : DataTable) :
    (∃ t, make_datatable (some cols) ri = Ret.ptr t ∧ row_count_invariant t) ∧
    (∃ t released, dt_delete_columns dt l = some (t, released) ∧ row_count_invariant t) ∧
    (∃ t1, (datatable_apply_na_mask na (some dt) (some mask)).dt = some t1 ∧
      row_count_invariant t1) :=
  ⟨make_datatable_invariant cols ri hterm heq,
   dt_delete_columns_invariant dt n l hinv hn hlen hrange,
   apply_na_mask_invariant na dt mask hinv⟩

/-! ## The string pass on well-formed columns -/

/-- C13 at a failing input.  The column "ab", "cd", "e" is well formed; under
the mask `[T, T, F]` the first two rows leave `doffset = 6` (the second masked
row counts the deficit of the first again), so at row 2 the offset to store is
`5 - 6 = -1` and the `memmove` is called with the size `5 - 0 - 6 = -1`: the
pass leaves defined behaviour. -/
theorem negative_move_after_two_masked_rows :
    string_wf (string_column 0 [97, 98, 99, 100, 101] [2, 4, 5]) 3 ∧
    for_loop (string_body [1, 1, 0] 0)
        { offdata := [2, 4, 5], strdata := [97, 98, 99, 100, 101], doffset := 0 } 2
      = some { offdata := [0, 0, 5], strdata := [97, 98, 99, 100, 101], doffset := 6 } ∧
    (5 : Int) - 0 - 6 = -1 ∧
    memmove [97, 98, 99, 100, 101] 0 (0 + 6) (5 - 0 - 6) = none ∧
    string_body [1, 1, 0] 0 2
        { offdata := [0, 0, 5], strdata := [97, 98, 99, 100, 101], doffset := 6 } = none ∧
    (datatable_apply_na_mask NA_spec (some short_tail_target) (some two_masked_mask)).status
      = Status.undefined := by
  refine ⟨?_, by decide, by decide, by decide, by decide, by decide⟩
  unfold string_wf
  decide

theorem exC_table_slots (i : Nat) (hi : i < 4) :
    ∃ c, exC_table.columns[i]? = some (some c) := by
  interval_cases i <;> exact ⟨_, rfl⟩

theorem exC_table_invariant : row_count_invariant exC_table := by
  unfold row_count_invariant
  show ∀ i : Nat, (i : Int) < exC_table.ncols → ∀ c : Column,
    exC_table.columns[i]? = some (some c) → c.nrows = exC_table.nrows
  intro i hi c hc
  have h4 : exC_table.ncols = 4 := rfl
  have hi4 : i < 4 := by omega
  interval_cases i <;>
    (simp only [exC_table, table_of, List.map, List.cons_append, List.nil_append,
       List.getElem?_cons_zero, List.getElem?_cons_succ, Option.some.injEq] at hc
     subst hc
     rfl)

/-- Instance of C12: the one-column array of Example A, and Example C with the
indices `[2, 0, 2]`. -/
theorem row_count_invariant_preserved_witness :
    ((none : Option Column) ∈ exA_target.columns ∧
     (∀ c c1 : Column, some c ∈ exA_target.columns → some c1 ∈ exA_target.columns →
        c.nrows = c1.nrows) ∧
     row_count_invariant exC_table ∧
     (∀ x ∈ ([2, 0, 2] : List Int), (0 : Int) ≤ x ∧ x < ((4 : Nat) : Int))) ∧
    ((∃ t, make_datatable (some exA_target.columns) none = Ret.ptr t ∧
        row_count_invariant t) ∧
     (∃ t released, dt_delete_columns exC_table [2, 0, 2] = some (t, released) ∧
        row_count_invariant t) ∧
     (∃ t1, (datatable_apply_na_mask NA_spec (some exC_table) (some exA_mask)).dt = some t1 ∧
        row_count_invariant t1)) :=
  have heq : ∀ c c1 : Column, some c ∈ exA_target.columns → some c1 ∈ exA_target.columns →
      c.nrows = c1.nrows := by
    intro c c1 h1 h2
    simp only [exA_target, table_of, List.map, List.cons_append, List.nil_append,
      List.mem_cons, Option.some.injEq, List.mem_singleton, reduceCtorEq, or_false,
      List.not_mem_nil] at h1 h2
    rw [h1, h2]
  ⟨⟨by decide, heq, exC_table_invariant, by decide⟩,
   row_count_invariant_preserved exA_target.columns none (by decide) heq
     exC_table 4 [2, 0, 2] exC_table_invariant rfl (by decide) (by decide)
     NA_spec exA_mask⟩

/-- Instance of C17 at Example C. -/
theorem dt_delete_columns_terminated_witness :
    (exC_table.columns[4]? = some none ∧
     (∀ i : Nat, i < 4 → ∃ c, exC_table.columns[i]? = some (some c)) ∧
     ([2, 0, 2] : List Int) ≠ [] ∧
     (∀ x ∈ ([2, 0, 2] : List Int), (0 : Int) ≤ x ∧ x < ((4 : Nat) : Int))) ∧
    ∃ t released, dt_delete_columns exC_table [2, 0, 2] = some (t, released) ∧
      0 ≤ t.ncols ∧
      t.columns[t.ncols.toNat]? = some none ∧
      (∀ i : Nat, (i : Int) < t.ncols → ∃ c, t.columns[i]? = some (some c)) ∧
      count_columns t.columns = some t.ncols.toNat :=
  ⟨⟨by decide, exC_table_slots, by decide, by decide⟩,
   dt_delete_columns_terminated exC_table 4 [2, 0, 2] rfl (by decide) exC_table_slots
     (by decide) (by decide)⟩

/-- Instance of C19: Example C with the indices `[2, -1, 2]`. -/
theorem dt_delete_columns_negative_index_witness :
    (∃ x ∈ ([2, -1, 2] : List Int), x < 0) ∧
    ∃ t, dt_delete_columns exC_table [2, -1, 2] = some (t, []) ∧
      t.ncols = exC_table.ncols ∧ t.nrows = exC_table.nrows ∧
      t.rowindex = exC_table.rowindex ∧
      t.columns = exC_table.columns.take (4 + 1) ∧
      ∀ i, i ≤ 4 → t.columns[i]? = exC_table.columns[i]? :=
  ⟨by decide,
   dt_delete_columns_negative_index exC_table 4 [2, -1, 2] rfl (by decide) (by decide)⟩

/-- Instance of C20 at the column of Example A: the rows in the order
`2, 0, 3, 1` and in the chunks `[2, 3]`, `[0, 1]`. -/
theorem fixed_scan_order_independent_witness :
    (sentinel NA_spec (fixed_column SType.ST_INTEGER_I1 [5, 128, 7, 9]).stype = some 128 ∧
     ([2, 0, 3, 1] : List Nat).Perm (List.range (4 : Int).toNat) ∧
     ([[2, 3], [0, 1]] : List (List Nat)).flatten.Perm (List.range (4 : Int).toNat)) ∧
    (fixed_case_in_order (fixed_column SType.ST_INTEGER_I1 [5, 128, 7, 9]) [0, 0, 1, 0]
        [2, 0, 3, 1] 128
      = apply_na_mask_column NA_spec (fixed_column SType.ST_INTEGER_I1 [5, 128, 7, 9])
          [0, 0, 1, 0] 4 ∧
     fixed_case_in_chunks (fixed_column SType.ST_INTEGER_I1 [5, 128, 7, 9]) [0, 0, 1, 0]
        [[2, 3], [0, 1]] 128
      = apply_na_mask_column NA_spec (fixed_column SType.ST_INTEGER_I1 [5, 128, 7, 9])
          [0, 0, 1, 0] 4) :=
  ⟨⟨by decide, by decide, by decide⟩,
   fixed_scan_order_independent NA_spec (fixed_column SType.ST_INTEGER_I1 [5, 128, 7, 9])
     [0, 0, 1, 0] 4 128 (by decide) [2, 0, 3, 1] (by decide) [[2, 3], [0, 1]] (by decide)⟩

theorem same_slot_trans (a b c : Option Column) (h1 : same_slot a b) (h2 : same_slot b c) :
    same_slot a c := by
  cases a <;> cases b <;> cases c <;> simp_all [same_slot]

/-- The loop over the target columns on a memory, however it ends: no column
object appears or disappears, each keeps its kind, row count, reference count
and buffer sizes, and a column object that is none of the first `n` columns of
the target is as before. -/
theorem apply_columns_mem_any (na : NAValues) (t m : TableObj) (nrows : Int)
    (cols : List Column) :
    ∀ (n : Nat) (st : Status) (cols1 : List Column),
      apply_columns_mem na t m nrows cols n = (st, cols1) →
      cols1.length = cols.length ∧
      (∀ a : Nat, same_slot cols[a]? cols1[a]?) ∧
      (∀ a : Nat, (∀ k, k < n → t.columns[k]? ≠ some (some a)) → cols1[a]? = cols[a]?) := by
  intro n
  induction n with
  | zero =>
    intro st cols1 h
    simp only [apply_columns_mem, Prod.mk.injEq] at h
    obtain ⟨_, rfl⟩ := h
    exact ⟨rfl, fun _ => same_slot_refl _, fun _ _ => rfl⟩
  | succ n ih =>
    intro st cols1 h
    simp only [apply_columns_mem] at h
    rcases hprev : apply_columns_mem na t m nrows cols n with ⟨st0, mid⟩
    obtain ⟨hlen, hslot, hframe⟩ := ih st0 mid hprev
    have hkeep : mid = cols1 →
        cols1.length = cols.length ∧
        (∀ a : Nat, same_slot cols[a]? cols1[a]?) ∧
        (∀ a : Nat, (∀ k, k < n + 1 → t.columns[k]? ≠ some (some a)) →
          cols1[a]? = cols[a]?) := by
      intro he
      subst he
      exact ⟨hlen, hslot, fun a ha => hframe a (fun k hk => ha k (by omega))⟩
    rw [hprev] at h
    cases st0 with
    | ok =>
      simp only at h
      split at h
      · rename_i p q hp hq
        split at h
        · rename_i col mcol hc hmc
          split at h
          · rename_i col1 hdone
            simp only [Prod.mk.injEq] at h
            obtain ⟨_, rfl⟩ := h
            have hpl : p < mid.length := (List.getElem?_eq_some.mp hc).1
            refine ⟨by simpa using hlen, ?_, ?_⟩
            · intro a
              by_cases hap : a = p
              · subst hap
                rw [List.getElem?_set_self hpl]
                refine same_slot_trans _ _ _ (hslot a) ?_
                rw [hc]
                exact apply_na_mask_column_frame na col mcol.data nrows col1 hdone
              · rw [List.getElem?_set_ne (fun h => hap h.symm)]
                exact hslot a
            · intro a ha
              have hap : p ≠ a := by
                intro he
                subst he
                exact ha n (by omega) hp
              rw [List.getElem?_set_ne hap]
              exact hframe a (fun k hk => ha k (by omega))
          · exact hkeep (Prod.mk.inj h).2
          · exact hkeep (Prod.mk.inj h).2
        · exact hkeep (Prod.mk.inj h).2
      · exact hkeep (Prod.mk.inj h).2
    | null => exact hkeep (Prod.mk.inj h).2
    | raised e => exact hkeep (Prod.mk.inj h).2
    | undefined => exact hkeep (Prod.mk.inj h).2

/-- A call on a memory, however it ends: the table objects are as before, and
the column objects are those the loop over the target columns leaves, or the
ones before the call. -/
theorem apply_mem_outcome_any (na : NAValues) (dt mask : Nat) (mem : Memory) (t m : TableObj)
    (ht : mem.tables[dt]? = some t) (hm : mem.tables[mask]? = some m) :
    ∃ (st : Status) (cols1 : List Column),
      (datatable_apply_na_mask_mem na (some dt) (some mask) mem).status = st ∧
      (datatable_apply_na_mask_mem na (some dt) (some mask) mem).mem
        = { mem with columns := cols1 } ∧
      (st = Status.ok →
        (datatable_apply_na_mask_mem na (some dt) (some mask) mem).ret = some dt) ∧
      cols1.length = mem.columns.length ∧
      (∀ a : Nat, same_slot mem.columns[a]? cols1[a]?) ∧
      (∀ a : Nat, (∀ k, k < (to_int t.ncols).toNat → t.columns[k]? ≠ some (some a)) →
        cols1[a]? = mem.columns[a]?) := by
  simp only [datatable_apply_na_mask_mem, ht, hm]
  by_cases hshape : t.ncols ≠ m.ncols ∨ t.nrows ≠ m.nrows
  · rw [if_pos hshape]
    exact ⟨_, mem.columns, rfl, rfl, by simp, rfl, fun _ => same_slot_refl _, fun _ _ => rfl⟩
  · rw [if_neg hshape]
    by_cases hview : t.rowindex.isSome = true ∨ m.rowindex.isSome = true
    · rw [if_pos hview]
      exact ⟨_, mem.columns, rfl, rfl, by simp, rfl, fun _ => same_slot_refl _, fun _ _ => rfl⟩
    · rw [if_neg hview]
      cases hchk : mask_check_mem mem.columns m (to_int t.ncols).toNat with
      | fail i =>
        exact ⟨_, mem.columns, rfl, rfl, by simp, rfl, fun _ => same_slot_refl _,
          fun _ _ => rfl⟩
      | undefined =>
        exact ⟨_, mem.columns, rfl, rfl, by simp, rfl, fun _ => same_slot_refl _,
          fun _ _ => rfl⟩
      | pass =>
        rcases hr : apply_columns_mem na t m t.nrows mem.columns (to_int t.ncols).toNat
          with ⟨st, cols1⟩
        obtain ⟨h1, h2, h3⟩ := apply_columns_mem_any na t m t.nrows mem.columns _ st cols1 hr
        refine ⟨st, cols1, rfl, rfl, ?_, h1, h2, h3⟩
        intro hst
        simp [hst]

/-- A second call can also differ from the first when one string column object
stands in two slots of the target and no mask column is shared.  The string
column with the offsets `[-2, 0, -3]` after `offdata[-1] = -1` stands in both slots,
under the masks `[F, F, T]` and `[T, T, F]`: the first call leaves the offsets
`[-1, -1, 0]`, the second call `[-1, -1, -1]`. -/
theorem second_call_with_repeated_column :
    datatable_apply_na_mask_mem NA_spec (some 0) (some 1) repeated_column_memory
      = { status := Status.ok, ret := some 0,
          mem := { repeated_column_memory with
                   columns := [string_column (-1) [0] [-1, -1, 0],
                               fixed_column SType.ST_BOOLEAN_I1 [0, 0, 1],
                               fixed_column SType.ST_BOOLEAN_I1 [1, 1, 0]] } } ∧
    datatable_apply_na_mask_mem NA_spec (some 0) (some 1)
        { repeated_column_memory with
          columns := [string_column (-1) [0] [-1, -1, 0],
                      fixed_column SType.ST_BOOLEAN_I1 [0, 0, 1],
                      fixed_column SType.ST_BOOLEAN_I1 [1, 1, 0]] }
      = { status := Status.ok, ret := some 0,
          mem := { repeated_column_memory with
                   columns := [string_column (-1) [0] [-1, -1, -1],
                               fixed_column SType.ST_BOOLEAN_I1 [0, 0, 1],
                               fixed_column SType.ST_BOOLEAN_I1 [1, 1, 0]] } } := by
  decide

theorem mask_check_table_value (cols : List Column) (m : TableObj) (n : Nat) :
    mask_check (table_value cols m) n = mask_check_mem cols m n := by
  induction n with
  | zero => rfl
  | succ n ih =>
    simp only [mask_check, mask_check_mem, ih]
    cases mask_check_mem cols m n with
    | pass =>
      simp only [table_value, List.getElem?_map]
      rcases hq : m.columns[n]? with _ | _ | q
      · rfl
      · rfl
      · simp only [Option.map_some', slot_value, Option.some_bind]
        cases cols[q]? <;> rfl
    | fail i => rfl
    | undefined => rfl

theorem map_slot_value_set (slots : List (Option Nat)) (cs : List Column) (n p : Nat)
    (col1 : Column) (hn : slots[n]? = some (some p)) (hp : p < cs.length)
    (hother : ∀ k, k ≠ n → slots[k]? ≠ some (some p)) :
    slots.map (slot_value (cs.set p col1))
      = (slots.map (slot_value cs)).set n (some col1) := by
  apply List.ext_getElem?
  intro k
  by_cases hk : k = n
  · subst hk
    have hlen : k < (slots.map (slot_value cs)).length := by
      rw [List.length_map]
      exact (List.getElem?_eq_some.mp hn).1
    rw [List.getElem?_set_self hlen, List.getElem?_map, hn]
    simp only [Option.map_some', slot_value, Option.some_bind, List.getElem?_set_self hp]
  · rw [List.getElem?_set_ne (fun h => hk h.symm), List.getElem?_map, List.getElem?_map]
    rcases hs : slots[k]? with _ | _ | a
    · rfl
    · rfl
    · have hne : p ≠ a := by
        intro he
        subst he
        exact hother k hk hs
      simp only [Option.map_some', slot_value, Option.some_bind,
        List.getElem?_set_ne hne]

/-- The loop over the target columns on a memory in which no column object
stands in two slots of the target or in a slot of each table does to the
columns the slots point to what the loop on the tables by value does. -/
theorem apply_columns_table_value (na : NAValues) (t m : TableObj) (nrows : Int)
    (cols : List Column)
    (hshare : ∀ (i k q : Nat), m.columns[i]? = some (some q) →
      t.columns[k]? ≠ some (some q))
    (hdistinct : ∀ (i k p : Nat), i ≠ k → t.columns[i]? = some (some p) →
      t.columns[k]? ≠ some (some p)) (n : Nat) :
    apply_columns na (table_value cols m) nrows (t.columns.map (slot_value cols)) n
      = ((apply_columns_mem na t m nrows cols n).1,
         t.columns.map (slot_value (apply_columns_mem na t m nrows cols n).2)) := by
  induction n with
  | zero => rfl
  | succ n ih =>
    simp only [apply_columns, apply_columns_mem, ih]
    rcases hprev : apply_columns_mem na t m nrows cols n with ⟨st, cs⟩
    obtain ⟨_, _, hframe⟩ := apply_columns_mem_any na t m nrows cols n st cs hprev
    cases st with
    | ok =>
      simp only [table_value, List.getElem?_map]
      rcases hp : t.columns[n]? with _ | _ | p
      · rfl
      · simp [slot_value]
      · rcases hq : m.columns[n]? with _ | _ | q
        · simp [slot_value]
        · simp only [Option.map_some', slot_value, Option.some_bind, Option.none_bind]
          cases cs[p]? <;> rfl
        · have hmq : cs[q]? = cols[q]? := hframe q (fun k _ => hshare n k q hq)
          simp only [Option.map_some', slot_value, Option.some_bind, hmq]
          rcases hc : cs[p]? with _ | col
          · rfl
          · rcases hmc : cols[q]? with _ | mcol
            · rfl
            · simp only
              cases hdone : apply_na_mask_column na col mcol.data nrows with
              | done col1 =>
                simp only
                have hpl : p < cs.length := (List.getElem?_eq_some.mp hc).1
                have hset := map_slot_value_set t.columns cs n p col1 hp hpl
                  (fun k hk hkp => hdistinct n k p (fun h => hk h.symm) hp hkp)
                simp only [slot_value] at hset
                rw [hset]
              | unsupported s => rfl
              | undefined => rfl
    | null => rfl
    | raised e => rfl
    | undefined => rfl

/-- The two embeddings agree where tables by value can stand for the tables in
the memory.  When no column object stands in two slots of the target, nor in a
slot of the target and a slot of the mask, a call on the memory ends as the
call on the tables by value ends, leaves in the slots of the target the columns
that call leaves, and leaves the columns of the mask as they were. -/
theorem apply_na_mask_mem_by_value (na : NAValues) (dt mask : Nat) (mem : Memory)
    (t m : TableObj)
    (ht : mem.tables[dt]? = some t) (hm : mem.tables[mask]? = some m)
    (hshare : ∀ (i k q : Nat), m.columns[i]? = some (some q) →
      t.columns[k]? ≠ some (some q))
    (hdistinct : ∀ (i k p : Nat), i ≠ k → t.columns[i]? = some (some p) →
      t.columns[k]? ≠ some (some p)) :
    datatable_apply_na_mask na (some (table_value mem.columns t))
        (some (table_value mem.columns m))
      = { status := (datatable_apply_na_mask_mem na (some dt) (some mask) mem).status,
          dt := some (table_value
            (datatable_apply_na_mask_mem na (some dt) (some mask) mem).mem.columns t) } ∧
    table_value (datatable_apply_na_mask_mem na (some dt) (some mask) mem).mem.columns m
      = table_value mem.columns m := by
  constructor
  · simp only [datatable_apply_na_mask, datatable_apply_na_mask_mem, ht, hm]
    simp only [table_value]
    by_cases hshape : t.ncols ≠ m.ncols ∨ t.nrows ≠ m.nrows
    · rw [if_pos hshape, if_pos hshape]
    · rw [if_neg hshape, if_neg hshape]
      by_cases hview : t.rowindex.isSome = true ∨ m.rowindex.isSome = true
      · rw [if_pos hview, if_pos hview]
      · rw [if_neg hview, if_neg hview]
        have hchk := mask_check_table_value mem.columns m (to_int t.ncols).toNat
        simp only [table_value] at hchk
        rw [hchk]
        cases mask_check_mem mem.columns m (to_int t.ncols).toNat with
        | fail i => rfl
        | undefined => rfl
        | pass =>
          have hcols := apply_columns_table_value na t m t.nrows mem.columns hshare hdistinct
            (to_int t.ncols).toNat
          simp only [table_value] at hcols
          simp only [hcols]
  · obtain ⟨st, cols1, _, h2, _, _, _, h6⟩ := apply_mem_outcome_any na dt mask mem t m ht hm
    rw [h2]
    simp only [table_value, DataTable.mk.injEq, true_and]
    apply List.map_congr_left
    intro s hs
    rcases s with _ | q
    · rfl
    · obtain ⟨i, hi⟩ := List.getElem?_of_mem hs
      simp only [slot_value, Option.some_bind]
      exact h6 q (fun k _ => hshare i k q hi)

end DT
